import Mathlib

/-!
Verification of dupprac2.c: descriptor duplication, shared offsets and character dumps

A shallow embedding of `src/dupprac2.c`.

* The kernel side (`open`, `dup`, `fcntl`, `lseek`, `write`, `read`, `close`) is a
  small state machine over a `World`: one backing file (`/tmp/file.txt`), a table of
  open file descriptions and a descriptor table.  Every call consults an `Oracle`
  that may make the call fail and may cut a transfer short.
* The C functions `print_all_characters_in_file`, `print_all_characters_in_buffer`,
  `check_offsets`, `check_flags` and `main` are state-passing functions over the
  same `World`; `exit` is an early exit carrying the status.
* Bytes are natural numbers (meant below 256), `int`/`off_t` values are integers;
  loop counters are natural numbers (sizes are taken inside the range of `int`).
* Standard output is the list of characters written; standard error is not modelled.
* The `trace` field is a ghost log of every system call with its result and of the
  value each helper function hands back to `main`.
* Values the C program leaves indeterminate are parameters, collected in `Indet`.
-/

namespace Dupprac2

/-! ## Kernel model -/

abbrev Byte := Nat

/-- Access mode reported by `fcntl(fd, F_GETFL)` for a file opened `O_RDWR`. -/
def O_RDWR : Nat := 2

/-- Size of the per-process descriptor table and of the description table. -/
def FD_LIMIT : Nat := 1024

def EXIT_SUCCESS : Int := 0

def EXIT_FAILURE : Int := 1

inductive Whence
  | SEEK_SET
  | SEEK_CUR
  | SEEK_END
  deriving DecidableEq, Repr

/-- One system call as issued by the program. -/
inductive Call
  | open
  | dup (fd : Int)
  | fcntl (fd : Int)
  | lseek (fd : Int) (offset : Int) (whence : Whence)
  | write (fd : Int) (count : Nat)
  | read (fd : Int) (count : Nat)
  | close (fd : Int)
  deriving DecidableEq, Repr

/-- The helper functions of the program whose return value `main` inspects. -/
inductive Fn
  | print_all_characters_in_file
  | print_all_characters_in_buffer
  | check_offsets
  | check_flags
  deriving DecidableEq, Repr

/-- Ghost log entries: a system call with its result, or the value a helper returned. -/
inductive Event
  | sys (c : Call) (r : Int)
  | ret (f : Fn) (v : Int)
  deriving DecidableEq, Repr

/-- An open file description: the shared cursor and the status flags. -/
structure OpenFile where
  offset : Nat
  flags : Nat
  deriving DecidableEq, Repr

/-- What the environment decides for one system call. -/
structure Outcome where
  fail : Bool
  limit : Nat

/-- The environment: the outcome of the `n`-th system call of the run. -/
abbrev Oracle := Nat → Outcome

structure World where
  /-- Content of `/tmp/file.txt` (empty when `open` has to create it). -/
  file : List Byte
  /-- Open file descriptions, by identifier. -/
  ofd : Nat → Option OpenFile
  /-- Descriptor table: descriptor to description identifier. -/
  fdt : Int → Option Nat
  /-- Number of system calls made so far. -/
  clock : Nat
  trace : List Event
  out : List Char

/-- State-passing computations over the world. -/
def K (α : Type) := World → α × World

instance : Monad K where
  pure a := fun w => (a, w)
  bind m f := fun w =>
    match m w with
    | (a, w1) => f a w1

/-- Log a system call with its result and advance the call counter. -/
def World.record (w : World) (c : Call) (r : Int) : World :=
  { w with clock := w.clock + 1, trace := w.trace ++ [Event.sys c r] }

/-- The description a descriptor refers to, with its identifier. -/
def World.desc (w : World) (fd : Int) : Option (Nat × OpenFile) :=
  match w.fdt fd with
  | none => none
  | some d =>
    match w.ofd d with
    | none => none
    | some f => some (d, f)

/-- Lowest unused descriptor at or above `k`, looking at `fuel` candidates. -/
def lowestFree (fdt : Int → Option Nat) : Nat → Nat → Option Int
  | 0, _ => none
  | fuel + 1, k => if (fdt (k : Int)).isNone then some (k : Int) else lowestFree fdt fuel (k + 1)

/-- Lowest unused description identifier at or above `k`. -/
def freshDesc (ofd : Nat → Option OpenFile) : Nat → Nat → Option Nat
  | 0, _ => none
  | fuel + 1, k => if (ofd k).isNone then some k else freshDesc ofd fuel (k + 1)

/-- Whether some descriptor below `n` still refers to description `d`. -/
def referenced (fdt : Int → Option Nat) (d : Nat) : Nat → Bool
  | 0 => false
  | n + 1 => decide (fdt (n : Int) = some d) || referenced fdt d n

/-- File content after writing `data` at offset `off` (a gap past the end reads as zeros). -/
def patch (file : List Byte) (off : Nat) (data : List Byte) : List Byte :=
  if data.isEmpty then file
  else file.take off ++ List.replicate (off - file.length) 0 ++ data
    ++ file.drop (off + data.length)

/-- Model of `open("/tmp/file.txt", O_RDWR | O_CREAT, S_IRUSR | S_IWUSR)`: no `O_TRUNC`,
no `O_APPEND`, so the content is kept and the new description starts at offset 0. -/
def sys_open (o : Oracle) : K Int := fun w =>
  if (o w.clock).fail then (-1, w.record Call.open (-1))
  else
    match lowestFree w.fdt FD_LIMIT 0, freshDesc w.ofd FD_LIMIT 0 with
    | some fd, some d =>
      (fd, { w with ofd := Function.update w.ofd d (some ⟨0, O_RDWR⟩),
                    fdt := Function.update w.fdt fd (some d) }.record Call.open fd)
    | _, _ => (-1, w.record Call.open (-1))

/-- Model of `dup(fd)`: a new descriptor for the same open file description. -/
def sys_dup (o : Oracle) (fd : Int) : K Int := fun w =>
  if (o w.clock).fail then (-1, w.record (Call.dup fd) (-1))
  else
    match w.desc fd, lowestFree w.fdt FD_LIMIT 0 with
    | some (d, _), some fd2 =>
      (fd2, { w with fdt := Function.update w.fdt fd2 (some d) }.record (Call.dup fd) fd2)
    | _, _ => (-1, w.record (Call.dup fd) (-1))

/-- Model of `fcntl(fd, F_GETFL)`. -/
def sys_fcntl (o : Oracle) (fd : Int) : K Int := fun w =>
  if (o w.clock).fail then (-1, w.record (Call.fcntl fd) (-1))
  else
    match w.desc fd with
    | some (_, f) => ((f.flags : Int), w.record (Call.fcntl fd) (f.flags : Int))
    | none => (-1, w.record (Call.fcntl fd) (-1))

/-- Model of `lseek(fd, offset, whence)`. -/
def sys_lseek (o : Oracle) (fd : Int) (offset : Int) (whence : Whence) : K Int := fun w =>
  if (o w.clock).fail then (-1, w.record (Call.lseek fd offset whence) (-1))
  else
    match w.desc fd with
    | some (d, f) =>
      let base : Int :=
        match whence with
        | Whence.SEEK_SET => 0
        | Whence.SEEK_CUR => (f.offset : Int)
        | Whence.SEEK_END => (w.file.length : Int)
      let pos := base + offset
      if pos < 0 then (-1, w.record (Call.lseek fd offset whence) (-1))
      else
        (pos, { w with ofd := Function.update w.ofd d (some { f with offset := pos.toNat })
               }.record (Call.lseek fd offset whence) pos)
    | none => (-1, w.record (Call.lseek fd offset whence) (-1))

/-- Model of `write(fd, buf, count)`; `buf` is the memory starting at the pointer. The
oracle may cut the transfer short. -/
def sys_write (o : Oracle) (fd : Int) (buf : List Byte) (count : Nat) : K Int := fun w =>
  if (o w.clock).fail then (-1, w.record (Call.write fd count) (-1))
  else
    match w.desc fd with
    | some (d, f) =>
      let data := buf.take (min count (o w.clock).limit)
      ((data.length : Int),
        { w with file := patch w.file f.offset data,
                 ofd := Function.update w.ofd d (some { f with offset := f.offset + data.length })
        }.record (Call.write fd count) (data.length : Int))
    | none => (-1, w.record (Call.write fd count) (-1))

/-- Model of `read(fd, buf, count)`: the result and the bytes stored at `buf`. -/
def sys_read (o : Oracle) (fd : Int) (count : Nat) : K (Int × List Byte) := fun w =>
  if (o w.clock).fail then ((-1, []), w.record (Call.read fd count) (-1))
  else
    match w.desc fd with
    | some (d, f) =>
      let data := (w.file.drop f.offset).take (min count (o w.clock).limit)
      (((data.length : Int), data),
        { w with ofd := Function.update w.ofd d (some { f with offset := f.offset + data.length })
        }.record (Call.read fd count) (data.length : Int))
    | none => ((-1, []), w.record (Call.read fd count) (-1))

/-- Model of `close(fd)`: the description goes away with its last descriptor. -/
def sys_close (o : Oracle) (fd : Int) : K Int := fun w =>
  if (o w.clock).fail then (-1, w.record (Call.close fd) (-1))
  else
    match w.fdt fd with
    | some d =>
      let fdt2 := Function.update w.fdt fd none
      (0, { w with fdt := fdt2,
                   ofd := if referenced fdt2 d FD_LIMIT then w.ofd
                          else Function.update w.ofd d none }.record (Call.close fd) 0)
    | none => (-1, w.record (Call.close fd) (-1))

/-- The world a process starts in: descriptors 0, 1, 2 refer to the terminal. -/
def boot (content : List Byte) : World :=
  { file := content
    ofd := fun d => if d = 0 then some ⟨0, O_RDWR⟩ else none
    fdt := fun fd => if fd = 0 ∨ fd = 1 ∨ fd = 2 then some 0 else none
    clock := 0
    trace := []
    out := [] }

/-! ## The program -/

/-- Values the C program leaves indeterminate. -/
structure Indet where
  /-- Initial content of the local `newchar` of `print_all_characters_in_file`. -/
  newchar : Byte
  /-- Initial content of the local array `filebuf` of `main` (50 bytes). -/
  filebuf : List Byte
  /-- The byte that follows the literal `"bbbbb"` and its terminating zero in memory. -/
  after_literal : Byte
  /-- What `main` sees as the value of `print_all_characters_in_buffer`, which has no
  `return` statement. -/
  ret_buffer : Int
  /-- What `main` sees as the value of `print_all_characters_in_file` when control
  reaches the end of its body, where there is no `return` statement. -/
  ret_file : Int

/-- The classification `isprint` in the C locale. -/
def isprint (c : Byte) : Bool := decide (0x20 ≤ c ∧ c ≤ 0x7E)

/-- Append text to standard output. -/
def printf (s : List Char) : K Unit := fun w => ((), { w with out := w.out ++ s })

/-- Hand `v` back to the caller, logging it. -/
def ret (f : Fn) (v : Int) : K Int := fun w =>
  (v, { w with trace := w.trace ++ [Event.ret f v] })

/-- The body of both dump loops: `printf("%c", c)` for a printable byte, `printf(" ")`
otherwise. -/
def put_printable (c : Byte) : K Unit :=
  if isprint c then printf [Char.ofNat c] else printf [' ']

/-- The loop of `print_all_characters_in_file`, with `k` iterations left. `false` stands
for the early `return -1`. -/
def file_loop (o : Oracle) (fd : Int) : Nat → Byte → K Bool
  | 0, _ => pure true
  | k + 1, newchar => do
    let r ← sys_read o fd 1
    if r.1 = -1 then pure false
    else
      let c := (r.2 ++ [newchar]).headD newchar
      put_printable c
      file_loop o fd k c

def print_all_characters_in_file (o : Oracle) (u : Indet) (fd : Int) : K Int := do
  let file_size ← sys_lseek o fd 0 Whence.SEEK_END
  if file_size = -1 then ret Fn.print_all_characters_in_file (-1)
  else do
    printf ("File contains " ++ toString file_size ++ " bytes.\n").toList
    let r ← sys_lseek o fd 0 Whence.SEEK_SET
    if r = -1 then ret Fn.print_all_characters_in_file (-1)
    else do
      printf "Printing all characters in file:\n\n##############\n\n".toList
      let ok ← file_loop o fd file_size.toNat u.newchar
      if ok = false then ret Fn.print_all_characters_in_file (-1)
      else do
        printf "\n\n##############\n\n".toList
        ret Fn.print_all_characters_in_file u.ret_file

/-- The loop of `print_all_characters_in_buffer`, with `k` iterations left, at index `i`. -/
def buffer_loop (buffer : List Byte) : Nat → Nat → K Unit
  | 0, _ => pure ()
  | k + 1, i => do
    put_printable (buffer.getD i 0)
    buffer_loop buffer k (i + 1)

def print_all_characters_in_buffer (u : Indet) (buffer : List Byte) (buffer_size : Nat) :
    K Int := do
  buffer_loop buffer buffer_size 0
  ret Fn.print_all_characters_in_buffer u.ret_buffer

def check_offsets (o : Oracle) (fd1 fd2 : Int) : K Int := do
  let off1 ← sys_lseek o fd1 0 Whence.SEEK_CUR
  let off2 ← sys_lseek o fd2 0 Whence.SEEK_CUR
  if off1 = -1 ∨ off2 = -1 then ret Fn.check_offsets (-1)
  else do
    printf ("\noffset1: " ++ toString off1 ++ ", offset2: " ++ toString off2 ++ "\n").toList
    if off1 ≠ off2 then do
      printf "File offsets for fd1 and fd2 don\x27t match.\n".toList
      ret Fn.check_offsets 1
    else do
      printf "File offsets for fd1 and fd2 are the same\n".toList
      ret Fn.check_offsets 0

def check_flags (o : Oracle) (fd1 fd2 : Int) : K Int := do
  let flags1 ← sys_fcntl o fd1
  let flags2 ← sys_fcntl o fd2
  if flags1 = -1 ∨ flags2 = -1 then ret Fn.check_flags (-1)
  else if flags1 ≠ flags2 then do
    printf "\nOpen file access flags for fd1 and fd2 don\x27t match.\n".toList
    ret Fn.check_flags 1
  else do
    printf "\nOpen file access flags for fd1 and fd2 are the same.\n".toList
    ret Fn.check_flags 0

/-- Length of the C string at the start of `buf`: the index of the first zero byte (the
scan ends with the modelled memory). -/
def strlen (buf : List Byte) : Nat := (buf.takeWhile (fun b => b != 0)).length

/-- Computations of `main`: `Except.error status` is a call of `exit(status)`. -/
def M (α : Type) := World → Except Int α × World

instance : Monad M where
  pure a := fun w => (Except.ok a, w)
  bind m f := fun w =>
    match m w with
    | (Except.ok a, w1) => f a w1
    | (Except.error e, w1) => (Except.error e, w1)

/-- Run a helper or a system call inside `main`. -/
def call {α : Type} (m : K α) : M α := fun w =>
  match m w with
  | (a, w1) => (Except.ok a, w1)

/-- Terminate the process with the given status. -/
def exit {α : Type} (status : Int) : M α := fun w => (Except.error status, w)

/-- The failure exit of `main` once both handles are open:
`close(newfd1); close(newfd2); exit(EXIT_FAILURE);`. -/
def bail {α : Type} (o : Oracle) (newfd1 newfd2 : Int) : M α := do
  let _ ← call (sys_close o newfd1)
  let _ ← call (sys_close o newfd2)
  exit EXIT_FAILURE

/-- The test `if (r == -1) { close(newfd1); close(newfd2); exit(EXIT_FAILURE); }`. -/
def check (o : Oracle) (newfd1 newfd2 : Int) (r : Int) : M Unit :=
  if r = -1 then bail o newfd1 newfd2 else pure ()

/-- Memory at the literal `"aaaaa"`. -/
def lit_a : List Byte := [97, 97, 97, 97, 97, 0]

/-- Memory at the literal `"bbbbb"`: its six bytes and the byte that follows them. -/
def lit_b (u : Indet) : List Byte := [98, 98, 98, 98, 98, 0, u.after_literal]

/-- Memory at the literal `"ccc"`. -/
def lit_c : List Byte := [99, 99, 99, 0]

/-- Lines 106-120 of `main`: acquire the two handles. -/
def main_acquire (o : Oracle) : M (Int × Int) := do
  let newfd1 ← call (sys_open o)
  if newfd1 = -1 then exit EXIT_FAILURE
  else do
    call (printf ("\nnewfd1 = " ++ toString newfd1 ++ "\n").toList)
    let newfd2 ← call (sys_dup o newfd1)
    if newfd2 = -1 then do
      let _ ← call (sys_close o newfd1)
      exit EXIT_FAILURE
    else do
      call (printf ("newfd2, which points to same open file description as newfd1: "
        ++ toString newfd2 ++ "\n").toList)
      pure (newfd1, newfd2)

/-- Lines 122-214 of `main`: the inspections, the three writes, the rewind and the bulk
read. The value is `bytes_read` with the content of `filebuf`. -/
def main_rw (o : Oracle) (u : Indet) (newfd1 newfd2 : Int) : M (Int × List Byte) := do
  let flags ← call (check_flags o newfd1 newfd2)
  check o newfd1 newfd2 flags
  let c1 ← call (check_offsets o newfd1 newfd2)
  check o newfd1 newfd2 c1
  let written1 ← call (sys_write o newfd1 lit_a 5)
  check o newfd1 newfd2 written1
  call (printf "\nChecking offsets after writing 5 characters to newfd1\n".toList)
  let c2 ← call (check_offsets o newfd1 newfd2)
  check o newfd1 newfd2 c2
  let written2 ← call (sys_write o newfd2 (lit_b u) 7)
  check o newfd1 newfd2 written2
  call (printf "\nChecking offsets after writing 7 characters to newfd2\n".toList)
  call (printf "File holes shouldn\x27t matter for the offsets.\n".toList)
  let c3 ← call (check_offsets o newfd1 newfd2)
  check o newfd1 newfd2 c3
  let written3 ← call (sys_write o newfd2 lit_c 3)
  check o newfd1 newfd2 written3
  call (printf "\nChecking offsets after writing 7 characters to newfd2\n".toList)
  let c4 ← call (check_offsets o newfd1 newfd2)
  check o newfd1 newfd2 c4
  let beginning ← call (sys_lseek o newfd1 0 Whence.SEEK_SET)
  check o newfd1 newfd2 beginning
  let r ← call (sys_read o newfd1 50)
  check o newfd1 newfd2 r.1
  let c5 ← call (check_offsets o newfd1 newfd2)
  check o newfd1 newfd2 c5
  pure (r.1, r.2 ++ u.filebuf.drop r.2.length)

/-- Lines 216-232 of `main`: print `filebuf` as a string, then character by character. -/
def main_show (o : Oracle) (u : Indet) (newfd1 newfd2 : Int) (filebuf : List Byte) :
    M Unit := do
  call (printf "\nWriting buffer read from file:\n\n###############\n\n".toList)
  call (printf ((filebuf.takeWhile (fun b => b != 0)).map Char.ofNat))
  call (printf "\n\n##############\n\n".toList)
  call (printf ("sizeof(filebuf) = 50. strlen(filebuf) = " ++ toString (strlen filebuf)
    ++ "\n").toList)
  call (printf ("printf() and strlen() functions stopped at the file hole, "
    ++ "but the read() function didn\x27t.\n").toList)
  call (printf ("\nPrinting all the characters in the 50 character buffer:"
    ++ "\n\n##############\n\n").toList)
  let r ← call (print_all_characters_in_buffer u filebuf 50)
  check o newfd1 newfd2 r
  call (printf "\n\n##############\n\n".toList)

/-- Lines 234-239 of `main`: the dump of the whole file. -/
def main_dump (o : Oracle) (u : Indet) (newfd1 newfd2 : Int) : M Unit := do
  let r ← call (print_all_characters_in_file o u newfd1)
  check o newfd1 newfd2 r

/-- Lines 241-256 of `main`: release the two handles. -/
def main_release (o : Oracle) (newfd1 newfd2 : Int) : M Int := do
  let r2 ← call (sys_close o newfd2)
  if r2 = -1 then do
    let _ ← call (sys_close o newfd1)
    exit EXIT_FAILURE
  else do
    let r1 ← call (sys_close o newfd1)
    if r1 = -1 then exit EXIT_FAILURE
    else do
      call (printf "We\x27re golden.\n".toList)
      pure EXIT_SUCCESS

def main (o : Oracle) (u : Indet) : M Int := do
  let fds ← main_acquire o
  let rd ← main_rw o u fds.1 fds.2
  main_show o u fds.1 fds.2 rd.2
  main_dump o u fds.1 fds.2
  main_release o fds.1 fds.2

/-- The run of `main` from a fresh process up to line 214 (after the bulk read and the
fifth offset check); the value is `bytes_read` with the content of `filebuf`. -/
def through_read (o : Oracle) (u : Indet) (content : List Byte) :
    Except Int (Int × List Byte) × World :=
  (do
    let fds ← main_acquire o
    main_rw o u fds.1 fds.2 : M (Int × List Byte)) (boot content)

/-- The run of `main` from a fresh process up to line 232, just before the call of
`print_all_characters_in_file`; the value is the pair of handles. -/
def before_dump (o : Oracle) (u : Indet) (content : List Byte) :
    Except Int (Int × Int) × World :=
  (do
    let fds ← main_acquire o
    let rd ← main_rw o u fds.1 fds.2
    main_show o u fds.1 fds.2 rd.2
    pure fds : M (Int × Int)) (boot content)

/-- No call fails and no transfer is cut short (the largest request is 50 bytes). -/
def unhindered (o : Oracle) : Prop := ∀ n, (o n).fail = false ∧ 50 ≤ (o n).limit

/-- The exit status of the process: the value `main` returns or the argument of `exit`. -/
def exit_status (r : Except Int Int × World) : Int :=
  match r.1 with
  | Except.ok v => v
  | Except.error e => e

/-- The environment in which no call fails and no transfer is cut short. -/
def calm : Oracle := fun _ => ⟨false, 50⟩

/-- Sample indeterminate values: a zeroed stack and helpers that appear to return 0. -/
def indet0 : Indet :=
  { newchar := 0, filebuf := List.replicate 50 0, after_literal := 0,
    ret_buffer := 0, ret_file := 0 }

/-! ## Specification-side definitions -/

/-- What either dump shows for a sequence of bytes: the byte itself when printable, a
blank otherwise. -/
def rendered (bs : List Byte) : List Char :=
  bs.map (fun b => if isprint b then Char.ofNat b else ' ')

/-- The world of the program between `dup` and the first `close`, when the process started
from `boot`: descriptors 3 and 4 both refer to description 1, whose cursor is `off`. -/
def std (file : List Byte) (off clock : Nat) (trace : List Event) (out : List Char) : World :=
  { file := file
    ofd := Function.update (boot []).ofd 1 (some ⟨off, O_RDWR⟩)
    fdt := Function.update (Function.update (boot []).fdt 3 (some 1)) 4 (some 1)
    clock := clock
    trace := trace
    out := out }

/-- The world after `s` has been written to standard output. -/
def World.say (w : World) (s : List Char) : World :=
  { w with out := w.out ++ s }

/-- The text `check_offsets` prints when both offsets are `off`. -/
def offsets_text (off : Nat) : List Char :=
  ("\noffset1: " ++ toString (off : Int) ++ ", offset2: " ++ toString (off : Int) ++ "\n").toList
    ++ "File offsets for fd1 and fd2 are the same\n".toList

/-- The bytes `buffer[i], ..., buffer[i + k - 1]` as the loop reads them. -/
def window (buffer : List Byte) (i k : Nat) : List Byte :=
  (List.range k).map (fun j => buffer.getD (i + j) 0)

/-- The three-way outcome of an inspector, as a function of the two query results. -/
def tri_state (q1 q2 r : Int) : Prop :=
  (r = -1 ∨ r = 0 ∨ r = 1) ∧
  (r = -1 ↔ (q1 = -1 ∨ q2 = -1)) ∧
  (r = 0 ↔ (q1 ≠ -1 ∧ q2 ≠ -1 ∧ q1 = q2)) ∧
  (r = 1 ↔ (q1 ≠ -1 ∧ q2 ≠ -1 ∧ q1 ≠ q2))

/-- The world with description `d` replaced by `g`. -/
def World.setDesc (w : World) (d : Nat) (g : OpenFile) : World :=
  { w with ofd := Function.update w.ofd d (some g) }

/-- Bytes transferred by the write of `"aaaaa"` (system call number 6 of the run). -/
def data1 (o : Oracle) : List Byte := lit_a.take (min 5 (o 6).limit)

/-- Bytes transferred by the 7-byte write at `"bbbbb"` (system call number 9). -/
def data2 (o : Oracle) (u : Indet) : List Byte := (lit_b u).take (min 7 (o 9).limit)

/-- Bytes transferred by the write of `"ccc"` (system call number 12). -/
def data3 (o : Oracle) : List Byte := lit_c.take (min 3 (o 12).limit)

/-- The backing file after the three writes. -/
def file_after (o : Oracle) (u : Indet) (content : List Byte) : List Byte :=
  patch (patch (patch content 0 (data1 o)) (0 + (data1 o).length) (data2 o u))
    (0 + (data1 o).length + (data2 o u).length) (data3 o)

/-- Bytes transferred by the bulk read (system call number 16). -/
def bulk (o : Oracle) (u : Indet) (content : List Byte) : List Byte :=
  List.take (min 50 (o 16).limit) (List.drop 0 (file_after o u content))

/-- The events of lines 122-214 when no call fails. -/
def rw_events (o : Oracle) (u : Indet) (content : List Byte) : List Event :=
  [Event.sys (Call.fcntl 3) (O_RDWR : Int),
   Event.sys (Call.fcntl 4) (O_RDWR : Int),
   Event.ret Fn.check_flags 0,
   Event.sys (Call.lseek 3 0 Whence.SEEK_CUR) ((0 : Nat) : Int),
   Event.sys (Call.lseek 4 0 Whence.SEEK_CUR) ((0 : Nat) : Int),
   Event.ret Fn.check_offsets 0,
   Event.sys (Call.write 3 5) ((data1 o).length : Int),
   Event.sys (Call.lseek 3 0 Whence.SEEK_CUR) ((0 + (data1 o).length : Nat) : Int),
   Event.sys (Call.lseek 4 0 Whence.SEEK_CUR) ((0 + (data1 o).length : Nat) : Int),
   Event.ret Fn.check_offsets 0,
   Event.sys (Call.write 4 7) ((data2 o u).length : Int),
   Event.sys (Call.lseek 3 0 Whence.SEEK_CUR)
     ((0 + (data1 o).length + (data2 o u).length : Nat) : Int),
   Event.sys (Call.lseek 4 0 Whence.SEEK_CUR)
     ((0 + (data1 o).length + (data2 o u).length : Nat) : Int),
   Event.ret Fn.check_offsets 0,
   Event.sys (Call.write 4 3) ((data3 o).length : Int),
   Event.sys (Call.lseek 3 0 Whence.SEEK_CUR)
     ((0 + (data1 o).length + (data2 o u).length + (data3 o).length : Nat) : Int),
   Event.sys (Call.lseek 4 0 Whence.SEEK_CUR)
     ((0 + (data1 o).length + (data2 o u).length + (data3 o).length : Nat) : Int),
   Event.ret Fn.check_offsets 0,
   Event.sys (Call.lseek 3 0 Whence.SEEK_SET) 0,
   Event.sys (Call.read 3 50) ((bulk o u content).length : Int),
   Event.sys (Call.lseek 3 0 Whence.SEEK_CUR) ((0 + (bulk o u content).length : Nat) : Int),
   Event.sys (Call.lseek 4 0 Whence.SEEK_CUR) ((0 + (bulk o u content).length : Nat) : Int),
   Event.ret Fn.check_offsets 0]

/-- The text of lines 122-214 when no call fails. -/
def rw_text (o : Oracle) (u : Indet) (content : List Byte) : List Char :=
  "\nOpen file access flags for fd1 and fd2 are the same.\n".toList ++
    (offsets_text 0 ++
      ("\nChecking offsets after writing 5 characters to newfd1\n".toList ++
        (offsets_text (0 + (data1 o).length) ++
          ("\nChecking offsets after writing 7 characters to newfd2\n".toList ++
            ("File holes shouldn\x27t matter for the offsets.\n".toList ++
              (offsets_text (0 + (data1 o).length + (data2 o u).length) ++
                ("\nChecking offsets after writing 7 characters to newfd2\n".toList ++
                  (offsets_text
                      (0 + (data1 o).length + (data2 o u).length + (data3 o).length) ++
                    offsets_text (0 + (bulk o u content).length)))))))))

/-- The text of lines 216-232 for a given content of `filebuf`. -/
def show_text (filebuf : List Byte) : List Char :=
  "\nWriting buffer read from file:\n\n###############\n\n".toList ++
    ((filebuf.takeWhile (fun b => b != 0)).map Char.ofNat ++
      ("\n\n##############\n\n".toList ++
        (("sizeof(filebuf) = 50. strlen(filebuf) = " ++ toString (strlen filebuf)
            ++ "\n").toList ++
          (("printf() and strlen() functions stopped at the file hole, "
              ++ "but the read() function didn\x27t.\n").toList ++
            (("\nPrinting all the characters in the 50 character buffer:"
                ++ "\n\n##############\n\n").toList ++
              (rendered (window filebuf 0 50) ++ "\n\n##############\n\n".toList))))))

/-- The events of the dump loop: `k` one-byte reads through descriptor 3. -/
def read_events (k : Nat) : List Event := List.replicate k (Event.sys (Call.read 3 1) 1)

/-- The text of the file dump for a given file content. -/
def dump_text (file : List Byte) : List Char :=
  ("File contains " ++ toString (file.length : Int) ++ " bytes.\n").toList ++
    ("Printing all characters in file:\n\n##############\n\n".toList ++
      (rendered file ++ "\n\n##############\n\n".toList))

/-- The events of the file dump when no call fails. -/
def dump_events (u : Indet) (file : List Byte) : List Event :=
  Event.sys (Call.lseek 3 0 Whence.SEEK_END) (file.length : Int) ::
    Event.sys (Call.lseek 3 0 Whence.SEEK_SET) 0 ::
      (read_events file.length ++ [Event.ret Fn.print_all_characters_in_file u.ret_file])

/-- The text of lines 106-120 when no call fails. -/
def acquire_text : List Char :=
  ("\nnewfd1 = " ++ toString (3 : Int) ++ "\n").toList ++
    ("newfd2, which points to same open file description as newfd1: "
      ++ toString (4 : Int) ++ "\n").toList

/-- The fifteen bytes the three full writes put at the start of the file. -/
def written (u : Indet) : List Byte :=
  [97, 97, 97, 97, 97, 98, 98, 98, 98, 98, 0, u.after_literal, 99, 99, 99]

/-- Every write of the run transfers its full requested length. -/
def full_writes (o : Oracle) : Prop :=
  5 ≤ (o 6).limit ∧ 7 ≤ (o 9).limit ∧ 3 ≤ (o 12).limit

/-- Calls that neither acquire nor release a handle. -/
def passive : Call → Bool
  | Call.open => false
  | Call.dup _ => false
  | Call.close _ => false
  | _ => true

/-- Every event the computation logs satisfies `P`. -/
def Emits {α : Type} (P : Event → Prop) (m : K α) : Prop :=
  ∀ w, ∃ t, (m w).2.trace = w.trace ++ t ∧ ∀ e ∈ t, P e

/-- A stretch of `main` between `dup` and the first `close`: it logs events satisfying
`P` only, and when it exits it first closes `a`, then `b`. -/
def Tidy {α : Type} (P : Event → Prop) (a b : Int) (m : M α) : Prop :=
  ∀ w, ∃ t, (∀ e ∈ t, P e) ∧
    match (m w).1 with
    | Except.ok _ => (m w).2.trace = w.trace ++ t
    | Except.error _ => ∃ r1 r2, (m w).2.trace =
        w.trace ++ t ++ [Event.sys (Call.close a) r1, Event.sys (Call.close b) r2]

/-- Replay a trace against the set of handles currently held: a successful `open` or `dup`
adds its result (which must not be held already), a `close` removes its argument (which
must be held), every other event leaves the set alone. `none` marks a violation. -/
def discipline : List Int → List Event → Option (List Int)
  | held, [] => some held
  | held, Event.sys Call.open r :: t =>
    if r = -1 then discipline held t
    else if r ∈ held then none else discipline (r :: held) t
  | held, Event.sys (Call.dup _) r :: t =>
    if r = -1 then discipline held t
    else if r ∈ held then none else discipline (r :: held) t
  | held, Event.sys (Call.close fd) _ :: t =>
    if fd ∈ held then discipline (held.erase fd) t else none
  | held, Event.sys (Call.fcntl _) _ :: t => discipline held t
  | held, Event.sys (Call.lseek _ _ _) _ :: t => discipline held t
  | held, Event.sys (Call.write _ _) _ :: t => discipline held t
  | held, Event.sys (Call.read _ _) _ :: t => discipline held t
  | held, Event.ret _ _ :: t => discipline held t

/-- Events that neither acquire nor release a handle. -/
def unrelated (e : Event) : Prop :=
  match e with
  | Event.sys c _ => passive c = true
  | Event.ret _ _ => True

/-- A tail of `main`: it logs events satisfying `P` and ends by closing `a` and `b`, once
each, in either order. -/
def Finishes {α : Type} (P : Event → Prop) (a b : Int) (m : M α) : Prop :=
  ∀ w, ∃ t, (∀ e ∈ t, P e) ∧ ∃ r1 r2,
    ((m w).2.trace = w.trace ++ t ++ [Event.sys (Call.close a) r1, Event.sys (Call.close b) r2]
      ∨ (m w).2.trace =
        w.trace ++ t ++ [Event.sys (Call.close b) r1, Event.sys (Call.close a) r2])

/-- Lines 122-256 of `main`: everything after the two handles are acquired. -/
def main_tail (o : Oracle) (u : Indet) (a b : Int) : M Int := do
  let rd ← main_rw o u a b
  main_show o u a b rd.2
  main_dump o u a b
  main_release o a b

/-- Lines 216-256 of `main`: everything after the fifth offset check. -/
def main_end (o : Oracle) (u : Indet) (a b : Int) (filebuf : List Byte) : M Int := do
  main_show o u a b filebuf
  main_dump o u a b
  main_release o a b

/-- Events other than a return of `check_offsets`. -/
def no_offset_check (e : Event) : Prop := ∀ v, e ≠ Event.ret Fn.check_offsets v

/-- The values returned by the calls of `check_offsets`, in order. -/
def offset_checks (t : List Event) : List Int :=
  t.filterMap (fun e =>
    match e with
    | Event.ret Fn.check_offsets v => some v
    | _ => none)

/-- Indeterminate values under which `main` reads -1 as the value of
`print_all_characters_in_buffer`. -/
def indet_minus_one : Indet := { indet0 with ret_buffer := -1 }

/-- Whether every system call logged in the trace succeeded. -/
def all_calls_succeed (t : List Event) : Bool :=
  t.all (fun e =>
    match e with
    | Event.sys _ r => decide (r ≠ -1)
    | Event.ret _ _ => true)

/-- The computation leaves the backing file as it found it. -/
def KeepsFile {α : Type} (m : K α) : Prop := ∀ w, (m w).2.file = w.file

/-- A stretch of `main` that leaves the backing file as it found it, on every exit. -/
def KeepsFileM {α : Type} (m : M α) : Prop := ∀ w, (m w).2.file = w.file

/-- The environment in which no call fails and only the bulk read (system call number 16)
is cut short, to 11 bytes. -/
def short_read : Oracle := fun n => if n = 16 then ⟨false, 11⟩ else ⟨false, 50⟩

/-! ## Basic facts -/

theorem printf_run (s : List Char) (w : World) : printf s w = ((), w.say s) := rfl

theorem say_desc (w : World) (s : List Char) (fd : Int) : (w.say s).desc fd = w.desc fd := rfl

theorem say_file (w : World) (s : List Char) : (w.say s).file = w.file := rfl

theorem say_out (w : World) (s : List Char) : (w.say s).out = w.out ++ s := rfl

theorem say_trace (w : World) (s : List Char) : (w.say s).trace = w.trace := rfl

theorem say_clock (w : World) (s : List Char) : (w.say s).clock = w.clock := rfl

theorem say_say (w : World) (s t : List Char) : (w.say s).say t = w.say (s ++ t) := by
  simp [World.say, List.append_assoc]

theorem natCast_ne_neg_one (n : Nat) : ((n : Int) = -1) = False := by
  simp only [eq_iff_iff, iff_false]; omega

theorem std_ofd_update (off off2 : Nat) :
    Function.update (Function.update (boot []).ofd 1 (some ⟨off, O_RDWR⟩)) 1
      (some ⟨off2, O_RDWR⟩) = Function.update (boot []).ofd 1 (some ⟨off2, O_RDWR⟩) := by
  simp

theorem std_desc3 (file : List Byte) (off clock : Nat) (trace : List Event) (out : List Char) :
    (std file off clock trace out).desc 3 = some (1, ⟨off, O_RDWR⟩) := by
  simp [World.desc, std, Function.update, boot]

theorem std_desc4 (file : List Byte) (off clock : Nat) (trace : List Event) (out : List Char) :
    (std file off clock trace out).desc 4 = some (1, ⟨off, O_RDWR⟩) := by
  simp [World.desc, std, Function.update, boot]

theorem lseek_std (o : Oracle) (fd : Int) (hfd : fd = 3 ∨ fd = 4) (wh : Whence)
    (file : List Byte) (off clock : Nat) (trace : List Event) (out : List Char)
    (hf : (o clock).fail = false) :
    sys_lseek o fd 0 wh (std file off clock trace out) =
      (((match wh with
          | Whence.SEEK_SET => 0
          | Whence.SEEK_CUR => off
          | Whence.SEEK_END => file.length : Nat) : Int),
        std file (match wh with
          | Whence.SEEK_SET => 0
          | Whence.SEEK_CUR => off
          | Whence.SEEK_END => file.length) (clock + 1)
          (trace ++ [Event.sys (Call.lseek fd 0 wh) ((match wh with
          | Whence.SEEK_SET => 0
          | Whence.SEEK_CUR => off
          | Whence.SEEK_END => file.length : Nat) : Int)]) out) := by
  have hd : (std file off clock trace out).desc fd = some (1, ⟨off, O_RDWR⟩) := by
    rcases hfd with rfl | rfl
    · exact std_desc3 _ _ _ _ _
    · exact std_desc4 _ _ _ _ _
  cases wh <;>
    simp [sys_lseek, hd] <;> simp [std, hf, World.record]

theorem lseek_cur_std (o : Oracle) (fd : Int) (hfd : fd = 3 ∨ fd = 4)
    (file : List Byte) (off clock : Nat) (trace : List Event) (out : List Char)
    (hf : (o clock).fail = false) :
    sys_lseek o fd 0 Whence.SEEK_CUR (std file off clock trace out) =
      ((off : Int), std file off (clock + 1)
        (trace ++ [Event.sys (Call.lseek fd 0 Whence.SEEK_CUR) (off : Int)]) out) :=
  lseek_std o fd hfd Whence.SEEK_CUR file off clock trace out hf

theorem lseek_set_std (o : Oracle) (fd : Int) (hfd : fd = 3 ∨ fd = 4)
    (file : List Byte) (off clock : Nat) (trace : List Event) (out : List Char)
    (hf : (o clock).fail = false) :
    sys_lseek o fd 0 Whence.SEEK_SET (std file off clock trace out) =
      (0, std file 0 (clock + 1)
        (trace ++ [Event.sys (Call.lseek fd 0 Whence.SEEK_SET) 0]) out) := by
  simpa using lseek_std o fd hfd Whence.SEEK_SET file off clock trace out hf

theorem lseek_end_std (o : Oracle) (fd : Int) (hfd : fd = 3 ∨ fd = 4)
    (file : List Byte) (off clock : Nat) (trace : List Event) (out : List Char)
    (hf : (o clock).fail = false) :
    sys_lseek o fd 0 Whence.SEEK_END (std file off clock trace out) =
      ((file.length : Int), std file file.length (clock + 1)
        (trace ++ [Event.sys (Call.lseek fd 0 Whence.SEEK_END) (file.length : Int)]) out) :=
  lseek_std o fd hfd Whence.SEEK_END file off clock trace out hf

theorem fcntl_std (o : Oracle) (fd : Int) (hfd : fd = 3 ∨ fd = 4)
    (file : List Byte) (off clock : Nat) (trace : List Event) (out : List Char)
    (hf : (o clock).fail = false) :
    sys_fcntl o fd (std file off clock trace out) =
      ((O_RDWR : Int), std file off (clock + 1)
        (trace ++ [Event.sys (Call.fcntl fd) (O_RDWR : Int)]) out) := by
  have hd : (std file off clock trace out).desc fd = some (1, ⟨off, O_RDWR⟩) := by
    rcases hfd with rfl | rfl
    · exact std_desc3 _ _ _ _ _
    · exact std_desc4 _ _ _ _ _
  simp [sys_fcntl, hd]
  simp [std, hf, World.record]

theorem write_std (o : Oracle) (fd : Int) (hfd : fd = 3 ∨ fd = 4) (buf : List Byte) (n : Nat)
    (file : List Byte) (off clock : Nat) (trace : List Event) (out : List Char)
    (hf : (o clock).fail = false) :
    sys_write o fd buf n (std file off clock trace out) =
      (((buf.take (min n (o clock).limit)).length : Int),
        std (patch file off (buf.take (min n (o clock).limit)))
          (off + (buf.take (min n (o clock).limit)).length) (clock + 1)
          (trace ++ [Event.sys (Call.write fd n)
            ((buf.take (min n (o clock).limit)).length : Int)]) out) := by
  have hd : (std file off clock trace out).desc fd = some (1, ⟨off, O_RDWR⟩) := by
    rcases hfd with rfl | rfl
    · exact std_desc3 _ _ _ _ _
    · exact std_desc4 _ _ _ _ _
  simp only [sys_write, hd]
  simp [std, hf, World.record]

theorem read_std (o : Oracle) (fd : Int) (hfd : fd = 3 ∨ fd = 4) (n : Nat)
    (file : List Byte) (off clock : Nat) (trace : List Event) (out : List Char)
    (hf : (o clock).fail = false) :
    sys_read o fd n (std file off clock trace out) =
      (((((file.drop off).take (min n (o clock).limit)).length : Int),
          (file.drop off).take (min n (o clock).limit)),
        std file (off + ((file.drop off).take (min n (o clock).limit)).length) (clock + 1)
          (trace ++ [Event.sys (Call.read fd n)
            (((file.drop off).take (min n (o clock).limit)).length : Int)]) out) := by
  have hd : (std file off clock trace out).desc fd = some (1, ⟨off, O_RDWR⟩) := by
    rcases hfd with rfl | rfl
    · exact std_desc3 _ _ _ _ _
    · exact std_desc4 _ _ _ _ _
  simp only [sys_read, hd]
  simp [std, hf, World.record]

theorem printf_std (s : List Char)
    (file : List Byte) (off clock : Nat) (trace : List Event) (out : List Char) :
    printf s (std file off clock trace out) = ((), std file off clock trace (out ++ s)) := rfl

theorem ret_std (f : Fn) (v : Int)
    (file : List Byte) (off clock : Nat) (trace : List Event) (out : List Char) :
    ret f v (std file off clock trace out) =
      (v, std file off clock (trace ++ [Event.ret f v]) out) := rfl

theorem K_bind {α β : Type} (m : K α) (f : α → K β) (w : World) :
    (m >>= f) w = f (m w).1 (m w).2 := rfl

theorem K_pure {α : Type} (a : α) (w : World) : (pure a : K α) w = (a, w) := rfl

theorem M_bind_call {α β : Type} (m : K α) (f : α → M β) (w : World) :
    (call m >>= f) w = f (m w).1 (m w).2 := rfl

theorem M_bind_ok {α β : Type} (m : M α) (f : α → M β) (w w1 : World) (a : α)
    (h : m w = (Except.ok a, w1)) : (m >>= f) w = f a w1 := by
  show (match m w with
    | (Except.ok a, w1) => f a w1
    | (Except.error e, w1) => (Except.error e, w1)) = _
  rw [h]

theorem M_bind_error {α β : Type} (m : M α) (f : α → M β) (w w1 : World) (e : Int)
    (h : m w = (Except.error e, w1)) : (m >>= f) w = (Except.error e, w1) := by
  show (match m w with
    | (Except.ok a, w1) => f a w1
    | (Except.error e, w1) => (Except.error e, w1)) = _
  rw [h]

theorem M_pure {α : Type} (a : α) (w : World) : (pure a : M α) w = (Except.ok a, w) := rfl

theorem call_run {α : Type} (m : K α) (w : World) :
    call m w = (Except.ok (m w).1, (m w).2) := rfl

theorem exit_run {α : Type} (e : Int) (w : World) :
    (exit e : M α) w = (Except.error e, w) := rfl

theorem lowestFree_boot (content : List Byte) :
    lowestFree (boot content).fdt FD_LIMIT 0 = some 3 := by
  simp [lowestFree, FD_LIMIT, boot]

theorem freshDesc_boot (content : List Byte) :
    freshDesc (boot content).ofd FD_LIMIT 0 = some 1 := by
  simp [freshDesc, FD_LIMIT, boot]

theorem open_boot (o : Oracle) (content : List Byte) (h0 : (o 0).fail = false) :
    sys_open o (boot content) =
      (3, { file := content
            ofd := Function.update (boot []).ofd 1 (some ⟨0, O_RDWR⟩)
            fdt := Function.update (boot []).fdt 3 (some 1)
            clock := 1
            trace := [Event.sys Call.open 3]
            out := [] }) := by
  have hc : (boot content).clock = 0 := rfl
  simp only [sys_open, hc, h0, lowestFree_boot, freshDesc_boot]
  simp [boot, World.record]

theorem dup_boot (o : Oracle) (content : List Byte) (out : List Char)
    (h1 : (o 1).fail = false) :
    sys_dup o 3 { file := content
                  ofd := Function.update (boot []).ofd 1 (some ⟨0, O_RDWR⟩)
                  fdt := Function.update (boot []).fdt 3 (some 1)
                  clock := 1
                  trace := [Event.sys Call.open 3]
                  out := out } =
      (4, std content 0 2 [Event.sys Call.open 3, Event.sys (Call.dup 3) 4] out) := by
  have hl : lowestFree (Function.update (boot []).fdt 3 (some 1)) FD_LIMIT 0 = some 4 := by
    simp [lowestFree, FD_LIMIT, boot, Function.update]
  simp only [sys_dup, h1, World.desc, hl]
  simp [std, World.record, Function.update]

/-- Under an environment without failures the two handles are 3 and 4. -/
theorem main_acquire_boot (o : Oracle) (content : List Byte)
    (h0 : (o 0).fail = false) (h1 : (o 1).fail = false) :
    main_acquire o (boot content) =
      (Except.ok (3, 4), std content 0 2
        [Event.sys Call.open 3, Event.sys (Call.dup 3) 4]
        (("\nnewfd1 = " ++ toString (3 : Int) ++ "\n").toList ++
          ("newfd2, which points to same open file description as newfd1: "
            ++ toString (4 : Int) ++ "\n").toList)) := by
  have h3 : ((3 : Int) = -1) = False := by decide
  have h4 : ((4 : Int) = -1) = False := by decide
  simp only [main_acquire, M_bind_call, open_boot o content h0, h3, h4, if_false, printf,
    dup_boot o content _ h1, M_pure]
  rfl

theorem check_offsets_std (o : Oracle) (ho : ∀ n, (o n).fail = false)
    (fd1 fd2 : Int) (h1 : fd1 = 3 ∨ fd1 = 4) (h2 : fd2 = 3 ∨ fd2 = 4)
    (file : List Byte) (off clock : Nat) (trace : List Event) (out : List Char) :
    check_offsets o fd1 fd2 (std file off clock trace out) =
      (0, std file off (clock + 2)
        (trace ++ [Event.sys (Call.lseek fd1 0 Whence.SEEK_CUR) (off : Int),
          Event.sys (Call.lseek fd2 0 Whence.SEEK_CUR) (off : Int),
          Event.ret Fn.check_offsets 0]) (out ++ offsets_text off)) := by
  simp only [check_offsets, K_bind, lseek_cur_std o fd1 h1 _ _ _ _ _ (ho _),
    lseek_cur_std o fd2 h2 _ _ _ _ _ (ho _), natCast_ne_neg_one, or_self, if_false,
    ne_eq, not_true_eq_false, printf_std, ret_std, offsets_text, List.append_assoc,
    List.singleton_append, List.cons_append, List.nil_append]

theorem check_flags_std (o : Oracle) (ho : ∀ n, (o n).fail = false)
    (fd1 fd2 : Int) (h1 : fd1 = 3 ∨ fd1 = 4) (h2 : fd2 = 3 ∨ fd2 = 4)
    (file : List Byte) (off clock : Nat) (trace : List Event) (out : List Char) :
    check_flags o fd1 fd2 (std file off clock trace out) =
      (0, std file off (clock + 2)
        (trace ++ [Event.sys (Call.fcntl fd1) (O_RDWR : Int),
          Event.sys (Call.fcntl fd2) (O_RDWR : Int),
          Event.ret Fn.check_flags 0])
        (out ++ "\nOpen file access flags for fd1 and fd2 are the same.\n".toList)) := by
  simp only [check_flags, K_bind, fcntl_std o fd1 h1 _ _ _ _ _ (ho _),
    fcntl_std o fd2 h2 _ _ _ _ _ (ho _), natCast_ne_neg_one, or_self, if_false,
    ne_eq, not_true_eq_false, printf_std, ret_std, List.append_assoc,
    List.singleton_append, List.cons_append, List.nil_append]

/-! ## The buffer dump -/

theorem window_succ (buffer : List Byte) (i k : Nat) :
    window buffer i (k + 1) = buffer.getD i 0 :: window buffer (i + 1) k := by
  simp only [window, List.range_succ_eq_map, List.map_cons, List.map_map, Nat.add_zero]
  congr 1
  apply List.map_congr_left
  intro j _
  simp only [Function.comp_apply]
  congr 1
  omega

theorem window_zero_eq_take (buffer : List Byte) (n : Nat) (hn : n ≤ buffer.length) :
    window buffer 0 n = buffer.take n := by
  apply List.ext_getElem
  · simp [window, hn]
  · intro i h1 h2
    simp only [window, List.length_map, List.length_range] at h1
    simp [window, List.getD_eq_getElem?_getD, List.getElem?_eq_getElem (lt_of_lt_of_le h1 hn)]

theorem put_printable_run (c : Byte) (w : World) :
    put_printable c w = ((), w.say (rendered [c])) := by
  unfold put_printable rendered
  by_cases h : isprint c = true <;> simp [h, printf, World.say]

theorem rendered_cons (b : Byte) (bs : List Byte) :
    rendered (b :: bs) = rendered [b] ++ rendered bs := rfl

theorem rendered_append (as bs : List Byte) :
    rendered (as ++ bs) = rendered as ++ rendered bs := by
  simp [rendered]

theorem rendered_length (bs : List Byte) : (rendered bs).length = bs.length := by
  simp [rendered]

theorem buffer_loop_run (buffer : List Byte) (k : Nat) :
    ∀ (i : Nat) (w : World),
      buffer_loop buffer k i w = ((), w.say (rendered (window buffer i k))) := by
  induction k with
  | zero =>
    intro i w
    simp [buffer_loop, window, rendered, K_pure, World.say]
  | succ k ih =>
    intro i w
    simp only [buffer_loop, K_bind, put_printable_run, ih, window_succ, say_say]
    simp [rendered]

theorem print_all_characters_in_buffer_run (u : Indet) (buffer : List Byte) (n : Nat)
    (w : World) :
    print_all_characters_in_buffer u buffer n w =
      (u.ret_buffer,
        { w.say (rendered (window buffer 0 n)) with
          trace := w.trace ++ [Event.ret Fn.print_all_characters_in_buffer u.ret_buffer] }) := by
  simp only [print_all_characters_in_buffer, K_bind, buffer_loop_run, ret]
  rfl

/-! ## The inspectors on an arbitrary world -/

theorem desc_eq_some (w : World) (fd : Int) (d : Nat) (f : OpenFile) :
    w.desc fd = some (d, f) ↔ w.fdt fd = some d ∧ w.ofd d = some f := by
  unfold World.desc
  cases h1 : w.fdt fd with
  | none => simp
  | some d1 =>
    cases h2 : w.ofd d1 with
    | none =>
      simp only [h2]
      constructor
      · intro h
        cases h
      · rintro ⟨h3, h4⟩
        cases h3
        rw [h2] at h4
        cases h4
    | some f1 =>
      simp only [h2]
      constructor
      · intro h
        cases h
        exact ⟨rfl, h2⟩
      · rintro ⟨h3, h4⟩
        cases h3
        rw [h2] at h4
        cases h4
        rfl

theorem record_ofd (w : World) (c : Call) (r : Int) : (w.record c r).ofd = w.ofd := rfl

theorem record_fdt (w : World) (c : Call) (r : Int) : (w.record c r).fdt = w.fdt := rfl

theorem record_file (w : World) (c : Call) (r : Int) : (w.record c r).file = w.file := rfl

theorem lseek_cur_keeps (o : Oracle) (fd : Int) (w : World) :
    (sys_lseek o fd 0 Whence.SEEK_CUR w).2.ofd = w.ofd ∧
    (sys_lseek o fd 0 Whence.SEEK_CUR w).2.fdt = w.fdt ∧
    (sys_lseek o fd 0 Whence.SEEK_CUR w).2.file = w.file := by
  unfold sys_lseek
  by_cases hf : (o w.clock).fail = true
  · simp [hf, World.record]
  · cases hd : w.desc fd with
    | none => simp [hf, World.record]
    | some p =>
      obtain ⟨d, f⟩ := p
      have h2 := ((desc_eq_some w fd d f).1 hd).2
      have hpos : ¬ ((f.offset : Int) + 0 < 0) := by omega
      simp only [hf, hpos, if_false, Bool.false_eq_true, record_ofd, record_fdt, record_file,
        and_true]
      simp [Function.update_eq_self_iff, h2]

theorem fcntl_keeps (o : Oracle) (fd : Int) (w : World) :
    (sys_fcntl o fd w).2.ofd = w.ofd ∧ (sys_fcntl o fd w).2.fdt = w.fdt ∧
    (sys_fcntl o fd w).2.file = w.file := by
  unfold sys_fcntl
  by_cases hf : (o w.clock).fail = true
  · simp [hf, World.record]
  · cases hd : w.desc fd with
    | none => simp [hf, World.record]
    | some p => simp [hf, World.record]

theorem printf_keeps (s : List Char) (w : World) :
    (printf s w).2.ofd = w.ofd ∧ (printf s w).2.fdt = w.fdt ∧ (printf s w).2.file = w.file :=
  ⟨rfl, rfl, rfl⟩

theorem check_offsets_run (o : Oracle) (fd1 fd2 : Int) (w : World) :
    (check_offsets o fd1 fd2 w).1 =
      (if (sys_lseek o fd1 0 Whence.SEEK_CUR w).1 = -1 ∨
          (sys_lseek o fd2 0 Whence.SEEK_CUR (sys_lseek o fd1 0 Whence.SEEK_CUR w).2).1 = -1
        then -1
        else if (sys_lseek o fd1 0 Whence.SEEK_CUR w).1 ≠
          (sys_lseek o fd2 0 Whence.SEEK_CUR (sys_lseek o fd1 0 Whence.SEEK_CUR w).2).1
        then 1 else 0) ∧
    (check_offsets o fd1 fd2 w).2.ofd = w.ofd ∧
    (check_offsets o fd1 fd2 w).2.fdt = w.fdt ∧
    (check_offsets o fd1 fd2 w).2.file = w.file := by
  have k1 := lseek_cur_keeps o fd1 w
  have k2 := lseek_cur_keeps o fd2 (sys_lseek o fd1 0 Whence.SEEK_CUR w).2
  simp only [check_offsets, K_bind]
  split_ifs <;>
    simp only [ret, printf, K_bind, true_and] <;>
    exact ⟨k2.1.trans k1.1, k2.2.1.trans k1.2.1, k2.2.2.trans k1.2.2⟩

theorem check_flags_run (o : Oracle) (fd1 fd2 : Int) (w : World) :
    (check_flags o fd1 fd2 w).1 =
      (if (sys_fcntl o fd1 w).1 = -1 ∨ (sys_fcntl o fd2 (sys_fcntl o fd1 w).2).1 = -1
        then -1
        else if (sys_fcntl o fd1 w).1 ≠ (sys_fcntl o fd2 (sys_fcntl o fd1 w).2).1
        then 1 else 0) ∧
    (check_flags o fd1 fd2 w).2.ofd = w.ofd ∧
    (check_flags o fd1 fd2 w).2.fdt = w.fdt ∧
    (check_flags o fd1 fd2 w).2.file = w.file := by
  have k1 := fcntl_keeps o fd1 w
  have k2 := fcntl_keeps o fd2 (sys_fcntl o fd1 w).2
  simp only [check_flags, K_bind]
  split_ifs <;>
    simp only [ret, printf, K_bind, true_and] <;>
    exact ⟨k2.1.trans k1.1, k2.2.1.trans k1.2.1, k2.2.2.trans k1.2.2⟩

theorem tri_state_ite (q1 q2 : Int) :
    tri_state q1 q2 (if q1 = -1 ∨ q2 = -1 then -1 else if q1 ≠ q2 then 1 else 0) := by
  unfold tri_state
  by_cases ha : q1 = -1 <;> by_cases hb : q2 = -1 <;> by_cases hc : q1 = q2 <;>
    simp [ha, hb, hc]

/-! ## The file dump on an arbitrary world -/

theorem desc_setDesc (w : World) (fd : Int) (d : Nat) (f g : OpenFile) (c : Call) (r : Int)
    (h : w.desc fd = some (d, f)) : ((w.setDesc d g).record c r).desc fd = some (d, g) := by
  have h1 := ((desc_eq_some w fd d f).1 h).1
  rw [desc_eq_some]
  exact ⟨h1, by simp [World.record, World.setDesc]⟩

theorem lseek_set_desc (o : Oracle) (fd : Int) (w : World) (d : Nat) (f : OpenFile)
    (h : w.desc fd = some (d, f)) (hf : (o w.clock).fail = false) :
    sys_lseek o fd 0 Whence.SEEK_SET w =
      (0, (w.setDesc d { f with offset := 0 }).record (Call.lseek fd 0 Whence.SEEK_SET) 0) := by
  simp [sys_lseek, h, hf, World.setDesc]

theorem lseek_end_desc (o : Oracle) (fd : Int) (w : World) (d : Nat) (f : OpenFile)
    (h : w.desc fd = some (d, f)) (hf : (o w.clock).fail = false) :
    sys_lseek o fd 0 Whence.SEEK_END w =
      ((w.file.length : Int), (w.setDesc d { f with offset := w.file.length }).record
        (Call.lseek fd 0 Whence.SEEK_END) (w.file.length : Int)) := by
  simp [sys_lseek, h, hf, World.setDesc]

theorem read_one_desc (o : Oracle) (fd : Int) (w : World) (d : Nat) (f : OpenFile) (b : Byte)
    (h : w.desc fd = some (d, f)) (hf : (o w.clock).fail = false)
    (hl : 1 ≤ (o w.clock).limit) (hb : w.file[f.offset]? = some b) :
    sys_read o fd 1 w =
      ((1, [b]), (w.setDesc d { f with offset := f.offset + 1 }).record (Call.read fd 1) 1) := by
  have hm : min 1 (o w.clock).limit = 1 := Nat.min_eq_left hl
  have hd : (w.file.drop f.offset).take 1 = [b] := by
    rw [List.getElem?_eq_some_iff] at hb
    obtain ⟨hlt, hb⟩ := hb
    rw [List.drop_eq_getElem_cons hlt, hb]
    simp
  simp [sys_read, h, hf, hm, hd, World.setDesc]

theorem drop_take_succ (file : List Byte) (off k : Nat) (b : Byte)
    (hb : file[off]? = some b) :
    (file.drop off).take (k + 1) = b :: (file.drop (off + 1)).take k := by
  rw [List.getElem?_eq_some_iff] at hb
  obtain ⟨hlt, hb⟩ := hb
  rw [List.drop_eq_getElem_cons hlt, hb]
  simp

theorem file_loop_out (o : Oracle) (fd : Int) (d : Nat)
    (ho : ∀ n, (o n).fail = false ∧ 1 ≤ (o n).limit) (k : Nat) :
    ∀ (c : Byte) (w : World) (f : OpenFile), w.desc fd = some (d, f) →
      f.offset + k ≤ w.file.length →
      (file_loop o fd k c w).1 = true ∧
      (file_loop o fd k c w).2.out = w.out ++ rendered ((w.file.drop f.offset).take k) := by
  induction k with
  | zero =>
    intro c w f _ _
    simp [file_loop, K_pure, rendered]
  | succ k ih =>
    intro c w f hd hk
    have hlt : f.offset < w.file.length := by omega
    have hb : w.file[f.offset]? = some (w.file[f.offset]) := List.getElem?_eq_getElem hlt
    have h1 : ((1 : Int) = -1) = False := by decide
    have hd2 := desc_setDesc w fd d f { f with offset := f.offset + 1 } (Call.read fd 1) 1 hd
    simp only [file_loop, K_bind, read_one_desc o fd w d f _ hd (ho _).1 (ho _).2 hb, h1,
      if_false, List.singleton_append, List.headD_cons, put_printable_run]
    have := ih (w.file[f.offset])
      (((w.setDesc d { f with offset := f.offset + 1 }).record (Call.read fd 1) 1).say
        (rendered [w.file[f.offset]]))
      { f with offset := f.offset + 1 } hd2
      (by show f.offset + 1 + k ≤ w.file.length; omega)
    refine ⟨this.1, this.2.trans ?_⟩
    show w.out ++ rendered [w.file[f.offset]]
        ++ rendered ((w.file.drop (f.offset + 1)).take k) = _
    rw [drop_take_succ w.file f.offset k _ hb]
    simp [rendered]

theorem print_all_characters_in_file_out (o : Oracle) (u : Indet) (fd : Int) (w : World)
    (d : Nat) (f : OpenFile) (h : w.desc fd = some (d, f))
    (ho : ∀ n, (o n).fail = false ∧ 1 ≤ (o n).limit) :
    (print_all_characters_in_file o u fd w).2.out =
      w.out ++ ("File contains " ++ toString (w.file.length : Int) ++ " bytes.\n").toList
        ++ "Printing all characters in file:\n\n##############\n\n".toList
        ++ rendered w.file ++ "\n\n##############\n\n".toList := by
  have h0 : ((0 : Int) = -1) = False := by decide
  have d1 := desc_setDesc w fd d f { f with offset := w.file.length }
    (Call.lseek fd 0 Whence.SEEK_END) (w.file.length : Int) h
  have d2 := desc_setDesc _ fd d _ { f with offset := 0 }
    (Call.lseek fd 0 Whence.SEEK_SET) 0
    ((say_desc _ ("File contains " ++ toString (w.file.length : Int) ++ " bytes.\n").toList
      fd).trans d1)
  have L := file_loop_out o fd d ho w.file.length u.newchar _ _
    ((say_desc _ "Printing all characters in file:\n\n##############\n\n".toList fd).trans d2)
    (by show 0 + w.file.length ≤ w.file.length; omega)
  simp only [print_all_characters_in_file, K_bind, lseek_end_desc o fd w d f h (ho _).1,
    natCast_ne_neg_one, if_false, printf_run, Int.toNat_ofNat]
  rw [lseek_set_desc o fd _ d _ ((say_desc _ _ fd).trans d1) (ho _).1]
  simp only [h0, if_false, K_bind, printf_run, L.1, Bool.true_eq_false, ret, say_out, L.2]
  show w.out ++ ("File contains " ++ toString (w.file.length : Int) ++ " bytes.\n").toList
      ++ "Printing all characters in file:\n\n##############\n\n".toList
      ++ rendered (List.take w.file.length (List.drop 0 w.file))
      ++ "\n\n##############\n\n".toList = _
  rw [List.drop_zero, List.take_length]

/-! ## The run of `main` from `boot` when no call fails -/

theorem check_ok (o : Oracle) (a b : Int) (n : Nat) (w : World) :
    check o a b (n : Int) w = (Except.ok (), w) := by
  simp only [check, natCast_ne_neg_one, if_false, M_pure]

theorem check_zero (o : Oracle) (a b : Int) (w : World) :
    check o a b 0 w = (Except.ok (), w) := check_ok o a b 0 w

theorem main_rw_std (o : Oracle) (ho : ∀ n, (o n).fail = false) (u : Indet)
    (content : List Byte) (trace : List Event) (out : List Char) :
    main_rw o u 3 4 (std content 0 2 trace out) =
      (Except.ok (((bulk o u content).length : Int),
          bulk o u content ++ u.filebuf.drop (bulk o u content).length),
        std (file_after o u content) (0 + (bulk o u content).length) 19
          (trace ++ rw_events o u content) (out ++ rw_text o u content)) := by
  have e3 : (3 : Int) = 3 ∨ (3 : Int) = 4 := Or.inl rfl
  have e4 : (4 : Int) = 3 ∨ (4 : Int) = 4 := Or.inr rfl
  simp only [main_rw, M_bind_call, check_flags_std o ho 3 4 e3 e4,
    check_offsets_std o ho 3 4 e3 e4,
    M_bind_ok _ _ _ _ _ (check_ok _ _ _ _ _), M_bind_ok _ _ _ _ _ (check_zero _ _ _ _),
    write_std o 3 e3 _ _ _ _ _ _ _ (ho _), write_std o 4 e4 _ _ _ _ _ _ _ (ho _),
    printf_std, lseek_set_std o 3 e3 _ _ _ _ _ (ho _), read_std o 3 e3 _ _ _ _ _ _ (ho _),
    M_pure, Nat.reduceAdd, List.append_assoc, List.cons_append, List.nil_append]
  rfl

theorem check_ne (o : Oracle) (a b : Int) (r : Int) (hr : r ≠ -1) (w : World) :
    check o a b r w = (Except.ok (), w) := by
  simp only [check, hr, if_false, M_pure]

theorem print_all_characters_in_buffer_std (u : Indet) (buffer : List Byte) (n : Nat)
    (file : List Byte) (off clock : Nat) (trace : List Event) (out : List Char) :
    print_all_characters_in_buffer u buffer n (std file off clock trace out) =
      (u.ret_buffer, std file off clock
        (trace ++ [Event.ret Fn.print_all_characters_in_buffer u.ret_buffer])
        (out ++ rendered (window buffer 0 n))) := by
  rw [print_all_characters_in_buffer_run]
  rfl

theorem main_show_std (o : Oracle) (u : Indet) (hb : u.ret_buffer ≠ -1) (filebuf : List Byte)
    (file : List Byte) (off clock : Nat) (trace : List Event) (out : List Char) :
    main_show o u 3 4 filebuf (std file off clock trace out) =
      (Except.ok (), std file off clock
        (trace ++ [Event.ret Fn.print_all_characters_in_buffer u.ret_buffer])
        (out ++ show_text filebuf)) := by
  simp only [main_show, M_bind_call, printf_std, print_all_characters_in_buffer_std,
    M_bind_ok _ _ _ _ _ (check_ne _ _ _ _ hb _), call_run, show_text, List.append_assoc]

theorem file_loop_std (o : Oracle) (ho : ∀ n, (o n).fail = false ∧ 1 ≤ (o n).limit)
    (file : List Byte) (k : Nat) :
    ∀ (c : Byte) (off clock : Nat) (trace : List Event) (out : List Char),
      off + k ≤ file.length →
      file_loop o 3 k c (std file off clock trace out) =
        (true, std file (off + k) (clock + k) (trace ++ read_events k)
          (out ++ rendered ((file.drop off).take k))) := by
  have e3 : (3 : Int) = 3 ∨ (3 : Int) = 4 := Or.inl rfl
  induction k with
  | zero =>
    intro c off clock trace out _
    simp [file_loop, K_pure, rendered, read_events]
  | succ k ih =>
    intro c off clock trace out hk
    have hlt : off < file.length := by omega
    have hb : file[off]? = some (file[off]) := List.getElem?_eq_getElem hlt
    have hm : min 1 (o clock).limit = 1 := Nat.min_eq_left (ho clock).2
    have hd : (file.drop off).take 1 = [file[off]] := by
      rw [List.drop_eq_getElem_cons hlt]
      rfl
    have h1 : (((1 : Nat) : Int) = -1) = False := natCast_ne_neg_one 1
    simp only [file_loop, K_bind, read_std o 3 e3 _ _ _ _ _ _ (ho _).1, hm, hd,
      List.length_singleton, h1, if_false, List.singleton_append, List.headD_cons,
      put_printable_run]
    have := ih (file[off]) (off + 1) (clock + 1)
      (trace ++ [Event.sys (Call.read 3 1) ((1 : Nat) : Int)])
      (out ++ rendered [file[off]]) (by omega)
    refine Eq.trans this ?_
    rw [drop_take_succ file off k _ hb]
    simp only [read_events, List.replicate_succ, rendered, List.map_cons, List.map_nil,
      List.append_assoc, List.singleton_append, Nat.cast_one]
    congr 2 <;> omega

theorem print_all_characters_in_file_std (o : Oracle)
    (ho : ∀ n, (o n).fail = false ∧ 1 ≤ (o n).limit) (u : Indet)
    (file : List Byte) (off clock : Nat) (trace : List Event) (out : List Char) :
    print_all_characters_in_file o u 3 (std file off clock trace out) =
      (u.ret_file, std file (0 + file.length) (clock + 1 + 1 + file.length)
        (trace ++ dump_events u file) (out ++ dump_text file)) := by
  have e3 : (3 : Int) = 3 ∨ (3 : Int) = 4 := Or.inl rfl
  have h0 : ((0 : Int) = -1) = False := by decide
  have L := file_loop_std o ho file file.length u.newchar 0 (clock + 1 + 1)
    (trace ++ [Event.sys (Call.lseek 3 0 Whence.SEEK_END) (file.length : Int)] ++
      [Event.sys (Call.lseek 3 0 Whence.SEEK_SET) 0])
    (out ++ ("File contains " ++ toString (file.length : Int) ++ " bytes.\n").toList ++
      "Printing all characters in file:\n\n##############\n\n".toList) (by omega)
  simp only [List.append_assoc, List.singleton_append, List.cons_append, List.nil_append] at L
  simp only [print_all_characters_in_file, K_bind, lseek_end_std o 3 e3 _ _ _ _ _ (ho _).1,
    natCast_ne_neg_one, if_false, printf_std, lseek_set_std o 3 e3 _ _ _ _ _ (ho _).1, h0,
    Int.toNat_ofNat, L, Bool.true_eq_false, ret_std, List.drop_zero, List.take_length,
    dump_events, dump_text, List.append_assoc, List.cons_append, List.nil_append,
    List.singleton_append]

theorem main_dump_std (o : Oracle) (ho : ∀ n, (o n).fail = false ∧ 1 ≤ (o n).limit)
    (u : Indet) (hr : u.ret_file ≠ -1)
    (file : List Byte) (off clock : Nat) (trace : List Event) (out : List Char) :
    main_dump o u 3 4 (std file off clock trace out) =
      (Except.ok (), std file (0 + file.length) (clock + 1 + 1 + file.length)
        (trace ++ dump_events u file) (out ++ dump_text file)) := by
  simp only [main_dump, M_bind_call, print_all_characters_in_file_std o ho,
    check_ne _ _ _ _ hr]

theorem close_ok (o : Oracle) (fd : Int) (w : World) (d : Nat) (h : w.fdt fd = some d)
    (hf : (o w.clock).fail = false) :
    (sys_close o fd w).1 = 0 ∧ (sys_close o fd w).2.file = w.file ∧
    (sys_close o fd w).2.trace = w.trace ++ [Event.sys (Call.close fd) 0] ∧
    (sys_close o fd w).2.out = w.out ∧ (sys_close o fd w).2.clock = w.clock + 1 ∧
    (sys_close o fd w).2.fdt = Function.update w.fdt fd none := by
  simp [sys_close, h, hf, World.record]

theorem main_release_ok (o : Oracle) (ho : ∀ n, (o n).fail = false) (a b : Int) (w : World)
    (da db : Nat) (ha : w.fdt a = some da) (hb : w.fdt b = some db) (hab : a ≠ b) :
    (main_release o a b w).1 = Except.ok EXIT_SUCCESS ∧
    (main_release o a b w).2.file = w.file ∧
    (main_release o a b w).2.trace =
      w.trace ++ [Event.sys (Call.close b) 0, Event.sys (Call.close a) 0] ∧
    (main_release o a b w).2.out = w.out ++ "We\x27re golden.\n".toList := by
  have cb := close_ok o b w db hb (ho _)
  have ha2 : (sys_close o b w).2.fdt a = some da := by
    rw [cb.2.2.2.2.2, Function.update_noteq hab]
    exact ha
  have ca := close_ok o a (sys_close o b w).2 da ha2 (ho _)
  have h0 : ((0 : Int) = -1) = False := by decide
  simp only [main_release, M_bind_call, cb.1, ca.1, h0, if_false, printf_run, M_pure, say_file,
    say_out, say_trace, ca.2.1, cb.2.1, ca.2.2.1, cb.2.2.1, ca.2.2.2.1, cb.2.2.2.1,
    List.append_assoc, List.singleton_append, and_self]

theorem std_fdt3 (file : List Byte) (off clock : Nat) (trace : List Event) (out : List Char) :
    (std file off clock trace out).fdt 3 = some 1 := by
  simp [std, Function.update]

theorem std_fdt4 (file : List Byte) (off clock : Nat) (trace : List Event) (out : List Char) :
    (std file off clock trace out).fdt 4 = some 1 := by
  simp [std, Function.update]

/-- The whole run when no call fails, every one-byte read of the dump delivers its byte,
and neither dump is taken to have returned -1. -/
theorem main_run (o : Oracle) (ho : ∀ n, (o n).fail = false ∧ 1 ≤ (o n).limit) (u : Indet)
    (hb : u.ret_buffer ≠ -1) (hr : u.ret_file ≠ -1) (content : List Byte) :
    (main o u (boot content)).1 = Except.ok EXIT_SUCCESS ∧
    (main o u (boot content)).2.file = file_after o u content ∧
    (main o u (boot content)).2.trace =
      [Event.sys Call.open 3, Event.sys (Call.dup 3) 4] ++ rw_events o u content ++
        [Event.ret Fn.print_all_characters_in_buffer u.ret_buffer] ++
        dump_events u (file_after o u content) ++
        [Event.sys (Call.close 4) 0, Event.sys (Call.close 3) 0] ∧
    (main o u (boot content)).2.out =
      acquire_text ++ rw_text o u content ++
        show_text (bulk o u content ++ u.filebuf.drop (bulk o u content).length) ++
        dump_text (file_after o u content) ++ "We\x27re golden.\n".toList := by
  have hf : ∀ n, (o n).fail = false := fun n => (ho n).1
  have h34 : (3 : Int) ≠ 4 := by decide
  have R := main_release_ok o hf 3 4
    (std (file_after o u content) (0 + (file_after o u content).length)
      (19 + 1 + 1 + (file_after o u content).length)
      ([Event.sys Call.open 3, Event.sys (Call.dup 3) 4] ++ rw_events o u content ++
        [Event.ret Fn.print_all_characters_in_buffer u.ret_buffer] ++
        dump_events u (file_after o u content))
      (acquire_text ++ rw_text o u content ++
        show_text (bulk o u content ++ u.filebuf.drop (bulk o u content).length) ++
        dump_text (file_after o u content)))
    1 1 (std_fdt3 _ _ _ _ _) (std_fdt4 _ _ _ _ _) h34
  have E : main o u (boot content) = main_release o 3 4
    (std (file_after o u content) (0 + (file_after o u content).length)
      (19 + 1 + 1 + (file_after o u content).length)
      ([Event.sys Call.open 3, Event.sys (Call.dup 3) 4] ++ rw_events o u content ++
        [Event.ret Fn.print_all_characters_in_buffer u.ret_buffer] ++
        dump_events u (file_after o u content))
      (acquire_text ++ rw_text o u content ++
        show_text (bulk o u content ++ u.filebuf.drop (bulk o u content).length) ++
        dump_text (file_after o u content))) := by
    unfold main
    rw [M_bind_ok _ _ _ _ _ (main_acquire_boot o content (hf 0) (hf 1))]
    rw [M_bind_ok _ _ _ _ _ (main_rw_std o hf u content _ _)]
    rw [M_bind_ok _ _ _ _ _ (main_show_std o u hb _ _ _ _ _ _)]
    rw [M_bind_ok _ _ _ _ _ (main_dump_std o ho u hr _ _ _ _ _)]
    rfl
  rw [E]
  exact R

/-! ## The backing file after the writes -/

theorem patch_at_end_of (pre rest data : List Byte) (hd : data ≠ []) :
    patch (pre ++ rest) pre.length data = pre ++ data ++ rest.drop data.length := by
  have he : data.isEmpty = false := by
    cases data with
    | nil => exact absurd rfl hd
    | cons a l => rfl
  simp [patch, he]

theorem file_after_full (o : Oracle) (hw : full_writes o) (u : Indet) (content : List Byte) :
    file_after o u content = written u ++ content.drop 15 := by
  obtain ⟨h1, h2, h3⟩ := hw
  have d1 : data1 o = [97, 97, 97, 97, 97] := by
    simp [data1, lit_a, Nat.min_eq_left h1]
  have d2 : data2 o u = [98, 98, 98, 98, 98, 0, u.after_literal] := by
    simp [data2, lit_b, Nat.min_eq_left h2]
  have d3 : data3 o = [99, 99, 99] := by
    simp [data3, lit_c, Nat.min_eq_left h3]
  have p1 := patch_at_end_of [] content [97, 97, 97, 97, 97] (by simp)
  have p2 := patch_at_end_of [97, 97, 97, 97, 97] (content.drop 5)
    [98, 98, 98, 98, 98, 0, u.after_literal] (by simp)
  have p3 := patch_at_end_of [97, 97, 97, 97, 97, 98, 98, 98, 98, 98, 0, u.after_literal]
    (content.drop 12) [99, 99, 99] (by simp)
  simp only [List.nil_append, List.length_nil, List.length_cons, List.cons_append,
    List.drop_drop, Nat.reduceAdd] at p1 p2 p3
  simp only [file_after, d1, d2, d3, List.length_cons, List.length_nil, Nat.reduceAdd, p1, p2,
    p3, written, List.cons_append, List.nil_append]

/-! ## Prefixes of the run -/

theorem through_read_std (o : Oracle) (ho : ∀ n, (o n).fail = false) (u : Indet)
    (content : List Byte) :
    through_read o u content =
      (Except.ok (((bulk o u content).length : Int),
          bulk o u content ++ u.filebuf.drop (bulk o u content).length),
        std (file_after o u content) (0 + (bulk o u content).length) 19
          ([Event.sys Call.open 3, Event.sys (Call.dup 3) 4] ++ rw_events o u content)
          (acquire_text ++ rw_text o u content)) := by
  unfold through_read
  rw [M_bind_ok _ _ _ _ _ (main_acquire_boot o content (ho 0) (ho 1))]
  exact main_rw_std o ho u content _ _

theorem before_dump_std (o : Oracle) (ho : ∀ n, (o n).fail = false) (u : Indet)
    (hb : u.ret_buffer ≠ -1) (content : List Byte) :
    before_dump o u content =
      (Except.ok (3, 4),
        std (file_after o u content) (0 + (bulk o u content).length) 19
          ([Event.sys Call.open 3, Event.sys (Call.dup 3) 4] ++ rw_events o u content ++
            [Event.ret Fn.print_all_characters_in_buffer u.ret_buffer])
          (acquire_text ++ rw_text o u content ++
            show_text (bulk o u content ++ u.filebuf.drop (bulk o u content).length))) := by
  unfold before_dump
  rw [M_bind_ok _ _ _ _ _ (main_acquire_boot o content (ho 0) (ho 1))]
  rw [M_bind_ok _ _ _ _ _ (main_rw_std o ho u content _ _)]
  rw [M_bind_ok _ _ _ _ _ (main_show_std o u hb _ _ _ _ _ _)]
  rfl

theorem bail_fst {α : Type} (o : Oracle) (a b : Int) (w : World) :
    (bail o a b w : Except Int α × World).1 = Except.error EXIT_FAILURE := rfl

theorem bail_eq {α : Type} (o : Oracle) (a b : Int) (w : World) :
    (bail o a b w : Except Int α × World) =
      (Except.error EXIT_FAILURE, (bail o a b w : Except Int α × World).2) := rfl

/-- The run of `main` is its prefix `before_dump` followed by the file dump and the
release of the handles. -/
theorem main_factor (o : Oracle) (u : Indet) (content : List Byte) :
    main o u (boot content) =
      match before_dump o u content with
      | (Except.ok fds, w) =>
        (do
          main_dump o u fds.1 fds.2
          main_release o fds.1 fds.2 : M Int) w
      | (Except.error e, w) => (Except.error e, w) := by
  unfold main before_dump
  rcases h1 : main_acquire o (boot content) with ⟨e1 | fds, w1⟩
  · rw [M_bind_error _ _ _ _ _ h1, M_bind_error _ _ _ _ _ h1]
  · rw [M_bind_ok _ _ _ _ _ h1, M_bind_ok _ _ _ _ _ h1]
    rcases h2 : main_rw o u fds.1 fds.2 w1 with ⟨e2 | rd, w2⟩
    · rw [M_bind_error _ _ _ _ _ h2, M_bind_error _ _ _ _ _ h2]
    · rw [M_bind_ok _ _ _ _ _ h2, M_bind_ok _ _ _ _ _ h2]
      rcases h3 : main_show o u fds.1 fds.2 rd.2 w2 with ⟨e3 | x, w3⟩
      · rw [M_bind_error _ _ _ _ _ h3, M_bind_error _ _ _ _ _ h3]
      · rw [M_bind_ok _ _ _ _ _ h3, M_bind_ok _ _ _ _ _ h3]

/-! ## What a computation adds to the trace -/

theorem emits_pure {α : Type} (P : Event → Prop) (a : α) : Emits P (pure a : K α) :=
  fun w => ⟨[], by simp [K_pure], by simp⟩

theorem emits_bind {α β : Type} (P : Event → Prop) (m : K α) (f : α → K β)
    (hm : Emits P m) (hf : ∀ a, Emits P (f a)) : Emits P (m >>= f) := by
  intro w
  obtain ⟨t1, e1, p1⟩ := hm w
  obtain ⟨t2, e2, p2⟩ := hf (m w).1 (m w).2
  refine ⟨t1 ++ t2, ?_, ?_⟩
  · rw [K_bind, e2, e1, List.append_assoc]
  · intro e he
    rcases List.mem_append.1 he with h | h
    · exact p1 e h
    · exact p2 e h

theorem emits_printf (P : Event → Prop) (s : List Char) : Emits P (printf s) :=
  fun w => ⟨[], by simp [printf_run, say_trace], by simp⟩

theorem emits_ret (P : Event → Prop) (f : Fn) (v : Int) (h : P (Event.ret f v)) :
    Emits P (ret f v) :=
  fun w => ⟨[Event.ret f v], rfl, by simpa using h⟩

theorem emits_one {α : Type} (P : Event → Prop) (m : K α) (c : Call)
    (hP : ∀ r, P (Event.sys c r))
    (h : ∀ w, ∃ r, (m w).2.trace = w.trace ++ [Event.sys c r]) : Emits P m := by
  intro w
  obtain ⟨r, hr⟩ := h w
  exact ⟨[Event.sys c r], hr, by simpa using hP r⟩

theorem fcntl_trace (o : Oracle) (fd : Int) (w : World) :
    ∃ r, (sys_fcntl o fd w).2.trace = w.trace ++ [Event.sys (Call.fcntl fd) r] := by
  unfold sys_fcntl
  split
  · exact ⟨_, rfl⟩
  · split <;> exact ⟨_, rfl⟩

theorem lseek_trace (o : Oracle) (fd : Int) (off : Int) (wh : Whence) (w : World) :
    ∃ r, (sys_lseek o fd off wh w).2.trace = w.trace ++ [Event.sys (Call.lseek fd off wh) r] := by
  unfold sys_lseek
  split
  · exact ⟨_, rfl⟩
  · split
    · dsimp only
      split <;> exact ⟨_, rfl⟩
    · exact ⟨_, rfl⟩

theorem write_trace (o : Oracle) (fd : Int) (buf : List Byte) (n : Nat) (w : World) :
    ∃ r, (sys_write o fd buf n w).2.trace = w.trace ++ [Event.sys (Call.write fd n) r] := by
  unfold sys_write
  split
  · exact ⟨_, rfl⟩
  · split <;> exact ⟨_, rfl⟩

theorem read_trace (o : Oracle) (fd : Int) (n : Nat) (w : World) :
    ∃ r, (sys_read o fd n w).2.trace = w.trace ++ [Event.sys (Call.read fd n) r] := by
  unfold sys_read
  split
  · exact ⟨_, rfl⟩
  · split <;> exact ⟨_, rfl⟩

theorem close_trace (o : Oracle) (fd : Int) (w : World) :
    ∃ r, (sys_close o fd w).2.trace = w.trace ++ [Event.sys (Call.close fd) r] := by
  unfold sys_close
  split
  · exact ⟨_, rfl⟩
  · split <;> exact ⟨_, rfl⟩

theorem emits_ite {α : Type} (P : Event → Prop) (c : Prop) [Decidable c] (m1 m2 : K α)
    (h1 : Emits P m1) (h2 : Emits P m2) : Emits P (if c then m1 else m2) := by
  by_cases h : c
  · simpa [h] using h1
  · simpa [h] using h2

theorem emits_put_printable (P : Event → Prop) (c : Byte) : Emits P (put_printable c) :=
  fun w => ⟨[], by simp [put_printable_run, say_trace], by simp⟩

theorem emits_buffer_loop (P : Event → Prop) (buffer : List Byte) (k i : Nat) :
    Emits P (buffer_loop buffer k i) :=
  fun w => ⟨[], by simp [buffer_loop_run, say_trace], by simp⟩

theorem emits_print_all_characters_in_buffer (P : Event → Prop) (u : Indet)
    (buffer : List Byte) (n : Nat)
    (hret : ∀ v, P (Event.ret Fn.print_all_characters_in_buffer v)) :
    Emits P (print_all_characters_in_buffer u buffer n) := by
  unfold print_all_characters_in_buffer
  exact emits_bind P _ _ (emits_buffer_loop P buffer n 0) (fun _ => emits_ret P _ _ (hret _))

theorem emits_file_loop (P : Event → Prop) (o : Oracle) (fd : Int)
    (hsys : ∀ c r, passive c = true → P (Event.sys c r)) (k : Nat) :
    ∀ c : Byte, Emits P (file_loop o fd k c) := by
  induction k with
  | zero => intro c; exact emits_pure P true
  | succ k ih =>
    intro c
    unfold file_loop
    refine emits_bind P _ _
      (emits_one P _ (Call.read fd 1) (fun r => hsys _ r rfl) (read_trace o fd 1)) ?_
    intro r
    refine emits_ite P _ _ _ (emits_pure P false) ?_
    exact emits_bind P _ _ (emits_put_printable P _) (fun _ => ih _)

theorem emits_print_all_characters_in_file (P : Event → Prop) (o : Oracle) (u : Indet)
    (fd : Int) (hsys : ∀ c r, passive c = true → P (Event.sys c r))
    (hret : ∀ v, P (Event.ret Fn.print_all_characters_in_file v)) :
    Emits P (print_all_characters_in_file o u fd) := by
  unfold print_all_characters_in_file
  refine emits_bind P _ _
    (emits_one P _ (Call.lseek fd 0 Whence.SEEK_END) (fun r => hsys _ r rfl) (lseek_trace o fd 0 Whence.SEEK_END)) ?_
  intro file_size
  refine emits_ite P _ _ _ (emits_ret P _ _ (hret _)) ?_
  refine emits_bind P _ _ (emits_printf P _) ?_
  intro _
  refine emits_bind P _ _
    (emits_one P _ (Call.lseek fd 0 Whence.SEEK_SET) (fun r => hsys _ r rfl) (lseek_trace o fd 0 Whence.SEEK_SET)) ?_
  intro r
  refine emits_ite P _ _ _ (emits_ret P _ _ (hret _)) ?_
  refine emits_bind P _ _ (emits_printf P _) ?_
  intro _
  refine emits_bind P _ _ (emits_file_loop P o fd hsys _ _) ?_
  intro ok
  refine emits_ite P _ _ _ (emits_ret P _ _ (hret _)) ?_
  exact emits_bind P _ _ (emits_printf P _) (fun _ => emits_ret P _ _ (hret _))

theorem emits_check_offsets (P : Event → Prop) (o : Oracle) (fd1 fd2 : Int)
    (hsys : ∀ c r, passive c = true → P (Event.sys c r))
    (hret : ∀ v, P (Event.ret Fn.check_offsets v)) :
    Emits P (check_offsets o fd1 fd2) := by
  unfold check_offsets
  refine emits_bind P _ _
    (emits_one P _ (Call.lseek fd1 0 Whence.SEEK_CUR) (fun r => hsys _ r rfl) (lseek_trace o fd1 0 Whence.SEEK_CUR)) ?_
  intro off1
  refine emits_bind P _ _
    (emits_one P _ (Call.lseek fd2 0 Whence.SEEK_CUR) (fun r => hsys _ r rfl) (lseek_trace o fd2 0 Whence.SEEK_CUR)) ?_
  intro off2
  refine emits_ite P _ _ _ (emits_ret P _ _ (hret _)) ?_
  refine emits_bind P _ _ (emits_printf P _) ?_
  intro _
  refine emits_ite P _ _ _ ?_ ?_
  · exact emits_bind P _ _ (emits_printf P _) (fun _ => emits_ret P _ _ (hret _))
  · exact emits_bind P _ _ (emits_printf P _) (fun _ => emits_ret P _ _ (hret _))

theorem emits_check_flags (P : Event → Prop) (o : Oracle) (fd1 fd2 : Int)
    (hsys : ∀ c r, passive c = true → P (Event.sys c r))
    (hret : ∀ v, P (Event.ret Fn.check_flags v)) :
    Emits P (check_flags o fd1 fd2) := by
  unfold check_flags
  refine emits_bind P _ _
    (emits_one P _ (Call.fcntl fd1) (fun r => hsys _ r rfl) (fcntl_trace o fd1)) ?_
  intro flags1
  refine emits_bind P _ _
    (emits_one P _ (Call.fcntl fd2) (fun r => hsys _ r rfl) (fcntl_trace o fd2)) ?_
  intro flags2
  refine emits_ite P _ _ _ (emits_ret P _ _ (hret _)) ?_
  refine emits_ite P _ _ _ ?_ ?_
  · exact emits_bind P _ _ (emits_printf P _) (fun _ => emits_ret P _ _ (hret _))
  · exact emits_bind P _ _ (emits_printf P _) (fun _ => emits_ret P _ _ (hret _))

theorem tidy_pure {α : Type} (P : Event → Prop) (a b : Int) (x : α) :
    Tidy P a b (pure x : M α) :=
  fun w => ⟨[], by simp, by simp [M_pure]⟩

theorem tidy_call {α : Type} (P : Event → Prop) (a b : Int) (m : K α) (h : Emits P m) :
    Tidy P a b (call m) := by
  intro w
  obtain ⟨t, e, p⟩ := h w
  exact ⟨t, p, by simpa [call_run] using e⟩

theorem tidy_bail {α : Type} (P : Event → Prop) (o : Oracle) (a b : Int) :
    Tidy P a b (bail o a b : M α) := by
  intro w
  obtain ⟨r1, h1⟩ := close_trace o a w
  obtain ⟨r2, h2⟩ := close_trace o b (sys_close o a w).2
  refine ⟨[], by simp, ?_⟩
  rw [bail_fst]
  refine ⟨r1, r2, ?_⟩
  show (sys_close o b (sys_close o a w).2).2.trace = _
  rw [h2, h1]
  simp

theorem tidy_check (P : Event → Prop) (o : Oracle) (a b : Int) (r : Int) :
    Tidy P a b (check o a b r) := by
  unfold check
  by_cases h : r = -1
  · simpa [h] using tidy_bail P o a b
  · simpa [h] using tidy_pure P a b ()

theorem tidy_bind {α β : Type} (P : Event → Prop) (a b : Int) (m : M α) (f : α → M β)
    (hm : Tidy P a b m) (hf : ∀ x, Tidy P a b (f x)) : Tidy P a b (m >>= f) := by
  intro w
  obtain ⟨t1, p1, h1⟩ := hm w
  rcases hmw : m w with ⟨e | x, w1⟩
  · rw [hmw] at h1
    obtain ⟨r1, r2, h1⟩ := h1
    refine ⟨t1, p1, ?_⟩
    rw [M_bind_error _ _ _ _ _ hmw]
    exact ⟨r1, r2, h1⟩
  · rw [hmw] at h1
    have h1 : w1.trace = w.trace ++ t1 := h1
    obtain ⟨t2, p2, h2⟩ := hf x w1
    refine ⟨t1 ++ t2, ?_, ?_⟩
    · intro e he
      rcases List.mem_append.1 he with h | h
      · exact p1 e h
      · exact p2 e h
    · rw [M_bind_ok _ _ _ _ _ hmw]
      cases hr : (f x w1).1 with
      | error e =>
        rw [hr] at h2
        obtain ⟨r1, r2, h2⟩ := h2
        exact ⟨r1, r2, by rw [h2, h1]; simp⟩
      | ok y =>
        rw [hr] at h2
        have h2 : (f x w1).2.trace = w1.trace ++ t2 := h2
        show (f x w1).2.trace = _
        rw [h2, h1, List.append_assoc]

/-- A step of `main` of the form `r = helper(...); if (r == -1) { fail }`. -/
theorem tidy_step {β : Type} (P : Event → Prop) (o : Oracle) (a b : Int) (m : K Int)
    (f : Int → M β) (hm : Emits P m) (hf : ∀ x, Tidy P a b (f x)) :
    Tidy P a b (call m >>= fun r => check o a b r >>= fun _ => f r) :=
  tidy_bind P a b _ _ (tidy_call P a b m hm)
    (fun r => tidy_bind P a b _ _ (tidy_check P o a b r) (fun _ => hf r))

theorem emits_sys_write (P : Event → Prop) (o : Oracle) (fd : Int) (buf : List Byte) (n : Nat)
    (hsys : ∀ c r, passive c = true → P (Event.sys c r)) : Emits P (sys_write o fd buf n) :=
  emits_one P _ (Call.write fd n) (fun r => hsys _ r rfl) (write_trace o fd buf n)

theorem emits_sys_lseek (P : Event → Prop) (o : Oracle) (fd : Int) (off : Int) (wh : Whence)
    (hsys : ∀ c r, passive c = true → P (Event.sys c r)) : Emits P (sys_lseek o fd off wh) :=
  emits_one P _ (Call.lseek fd off wh) (fun r => hsys _ r rfl) (lseek_trace o fd off wh)

theorem emits_sys_read (P : Event → Prop) (o : Oracle) (fd : Int) (n : Nat)
    (hsys : ∀ c r, passive c = true → P (Event.sys c r)) : Emits P (sys_read o fd n) :=
  emits_one P _ (Call.read fd n) (fun r => hsys _ r rfl) (read_trace o fd n)

theorem tidy_main_rw (P : Event → Prop) (o : Oracle) (u : Indet) (a b : Int)
    (hsys : ∀ c r, passive c = true → P (Event.sys c r))
    (hret : ∀ f v, P (Event.ret f v)) : Tidy P a b (main_rw o u a b) := by
  unfold main_rw
  repeat' first
    | with_reducible exact tidy_check P o _ _ _
    | with_reducible exact tidy_pure P _ _ _
    | with_reducible exact tidy_call P _ _ _ (emits_check_flags P o _ _ hsys (hret _))
    | with_reducible exact tidy_call P _ _ _ (emits_check_offsets P o _ _ hsys (hret _))
    | with_reducible exact tidy_call P _ _ _ (emits_sys_write P o _ _ _ hsys)
    | with_reducible exact tidy_call P _ _ _ (emits_sys_lseek P o _ _ _ hsys)
    | with_reducible exact tidy_call P _ _ _ (emits_sys_read P o _ _ hsys)
    | with_reducible exact tidy_call P _ _ _ (emits_printf P _)
    | with_reducible refine tidy_bind P _ _ _ _ ?_ (fun _ => ?_)

theorem tidy_main_show (P : Event → Prop) (o : Oracle) (u : Indet) (a b : Int)
    (filebuf : List Byte) (hret : ∀ v, P (Event.ret Fn.print_all_characters_in_buffer v)) :
    Tidy P a b (main_show o u a b filebuf) := by
  unfold main_show
  repeat' first
    | with_reducible exact tidy_check P o _ _ _
    | with_reducible exact tidy_call P _ _ _ (emits_print_all_characters_in_buffer P u _ _ hret)
    | with_reducible exact tidy_call P _ _ _ (emits_printf P _)
    | with_reducible refine tidy_bind P _ _ _ _ ?_ (fun _ => ?_)

theorem tidy_main_dump (P : Event → Prop) (o : Oracle) (u : Indet) (a b : Int)
    (hsys : ∀ c r, passive c = true → P (Event.sys c r))
    (hret : ∀ v, P (Event.ret Fn.print_all_characters_in_file v)) :
    Tidy P a b (main_dump o u a b) := by
  unfold main_dump
  repeat' first
    | with_reducible exact tidy_check P o _ _ _
    | with_reducible exact tidy_call P _ _ _ (emits_print_all_characters_in_file P o u _ hsys hret)
    | with_reducible refine tidy_bind P _ _ _ _ ?_ (fun _ => ?_)

/-! ## Resource discipline -/

theorem discipline_skip (held : List Int) (t rest : List Event)
    (ht : ∀ e ∈ t, unrelated e) : discipline held (t ++ rest) = discipline held rest := by
  induction t with
  | nil => rfl
  | cons e t ih =>
    have he : unrelated e := ht e (List.mem_cons_self _ _)
    have ih2 := ih (fun x hx => ht x (List.mem_cons_of_mem _ hx))
    cases e with
    | ret f v => simpa [discipline] using ih2
    | sys c r =>
      cases c with
      | «open» => exact absurd he (by simp [unrelated, passive])
      | dup fd => exact absurd he (by simp [unrelated, passive])
      | close fd => exact absurd he (by simp [unrelated, passive])
      | fcntl fd => simpa [discipline] using ih2
      | lseek fd off wh => simpa [discipline] using ih2
      | write fd n => simpa [discipline] using ih2
      | read fd n => simpa [discipline] using ih2

theorem finishes_release (P : Event → Prop) (o : Oracle) (a b : Int) :
    Finishes P a b (main_release o a b) := by
  intro w
  obtain ⟨r1, h1⟩ := close_trace o b w
  obtain ⟨r2, h2⟩ := close_trace o a (sys_close o b w).2
  refine ⟨[], by simp, r1, r2, Or.inr ?_⟩
  simp only [main_release, M_bind_call]
  split_ifs
  · simp only [M_bind_call, exit_run, h2, h1, List.append_assoc, List.singleton_append,
      List.nil_append]
  · simp only [M_bind_call]
    split_ifs
    · simp only [exit_run, h2, h1, List.append_assoc, List.singleton_append, List.nil_append]
    · simp only [M_bind_call, printf_run, M_pure, say_trace, h2, h1, List.append_assoc,
        List.singleton_append, List.nil_append]

theorem finishes_bind {α β : Type} (P : Event → Prop) (a b : Int) (m : M α) (f : α → M β)
    (hm : Tidy P a b m) (hf : ∀ x, Finishes P a b (f x)) : Finishes P a b (m >>= f) := by
  intro w
  obtain ⟨t1, p1, h1⟩ := hm w
  rcases hmw : m w with ⟨e | x, w1⟩
  · rw [hmw] at h1
    obtain ⟨r1, r2, h1⟩ := h1
    refine ⟨t1, p1, r1, r2, Or.inl ?_⟩
    rw [M_bind_error _ _ _ _ _ hmw]
    exact h1
  · rw [hmw] at h1
    have h1 : w1.trace = w.trace ++ t1 := h1
    obtain ⟨t2, p2, r1, r2, h2⟩ := hf x w1
    refine ⟨t1 ++ t2, ?_, r1, r2, ?_⟩
    · intro e he
      rcases List.mem_append.1 he with h | h
      · exact p1 e h
      · exact p2 e h
    · rw [M_bind_ok _ _ _ _ _ hmw]
      rcases h2 with h2 | h2
      · exact Or.inl (by rw [h2, h1]; simp)
      · exact Or.inr (by rw [h2, h1]; simp)

theorem main_acquire_cases (o : Oracle) (content : List Byte) :
    (∃ w, main_acquire o (boot content) = (Except.error EXIT_FAILURE, w) ∧
        w.trace = [Event.sys Call.open (-1)]) ∨
    (∃ w r, main_acquire o (boot content) = (Except.error EXIT_FAILURE, w) ∧
        w.trace = [Event.sys Call.open 3, Event.sys (Call.dup 3) (-1),
          Event.sys (Call.close 3) r]) ∨
    (∃ w, main_acquire o (boot content) = (Except.ok (3, 4), w) ∧
        w.trace = [Event.sys Call.open 3, Event.sys (Call.dup 3) 4]) := by
  by_cases h0 : (o 0).fail = true
  · left
    have hc : (boot content).clock = 0 := rfl
    have e : sys_open o (boot content) = (-1, (boot content).record Call.open (-1)) := by
      simp only [sys_open, hc, h0, if_true]
    refine ⟨(boot content).record Call.open (-1), ?_, rfl⟩
    simp only [main_acquire, M_bind_call, e, if_true, exit_run]
  · have h0 : (o 0).fail = false := by simpa using h0
    right
    have h3 : ((3 : Int) = -1) = False := by decide
    by_cases h1 : (o 1).fail = true
    · left
      obtain ⟨r, hr⟩ := close_trace o 3
        (({ file := content
            ofd := Function.update (boot []).ofd 1 (some ⟨0, O_RDWR⟩)
            fdt := Function.update (boot []).fdt 3 (some 1)
            clock := 1
            trace := [Event.sys Call.open 3]
            out := [] ++ ("\nnewfd1 = " ++ toString (3 : Int) ++ "\n").toList } : World).record
          (Call.dup 3) (-1))
      refine ⟨_, r, ?_, hr⟩
      simp only [main_acquire, M_bind_call, open_boot o content h0, h3, if_false, printf,
        sys_dup, h1, if_true, exit_run]
    · have h1 : (o 1).fail = false := by simpa using h1
      right
      exact ⟨_, main_acquire_boot o content h0 h1, rfl⟩

theorem main_eq_tail (o : Oracle) (u : Indet) :
    main o u = (main_acquire o >>= fun fds => main_tail o u fds.1 fds.2) := rfl

theorem finishes_main_tail (o : Oracle) (u : Indet) (a b : Int) :
    Finishes unrelated a b (main_tail o u a b) := by
  have hsys : ∀ c r, passive c = true → unrelated (Event.sys c r) := fun _ _ h => h
  have hret : ∀ f v, unrelated (Event.ret f v) := fun _ _ => trivial
  unfold main_tail
  exact finishes_bind _ a b _ _ (tidy_main_rw unrelated o u a b hsys hret)
    (fun rd => finishes_bind _ a b _ _ (tidy_main_show unrelated o u a b rd.2 (hret _))
      (fun _ => finishes_bind _ a b _ _ (tidy_main_dump unrelated o u a b hsys (hret _))
        (fun _ => finishes_release _ o a b)))

theorem main_tail_eq_end (o : Oracle) (u : Indet) (a b : Int) :
    main_tail o u a b = (main_rw o u a b >>= fun rd => main_end o u a b rd.2) := rfl

theorem finishes_main_end (o : Oracle) (u : Indet) (a b : Int) (filebuf : List Byte) :
    Finishes no_offset_check a b (main_end o u a b filebuf) := by
  have hsys : ∀ c r, passive c = true → no_offset_check (Event.sys c r) := by
    intro c r _ v h
    cases h
  unfold main_end
  refine finishes_bind _ a b _ _ (tidy_main_show no_offset_check o u a b filebuf ?_)
    (fun _ => finishes_bind _ a b _ _ (tidy_main_dump no_offset_check o u a b hsys ?_)
      (fun _ => finishes_release _ o a b))
  · intro v v2 h
    cases h
  · intro v v2 h
    cases h

theorem offset_checks_none (t : List Event) (h : ∀ e ∈ t, no_offset_check e) :
    offset_checks t = [] := by
  induction t with
  | nil => rfl
  | cons e t ih =>
    have he := h e (List.mem_cons_self _ _)
    have ih2 := ih (fun x hx => h x (List.mem_cons_of_mem _ hx))
    unfold offset_checks at ih2 ⊢
    rw [List.filterMap_cons]
    cases e with
    | sys c r => simpa using ih2
    | ret f v =>
      cases f with
      | check_offsets => exact absurd rfl (he v)
      | print_all_characters_in_file => simpa using ih2
      | print_all_characters_in_buffer => simpa using ih2
      | check_flags => simpa using ih2

theorem offset_checks_append (s t : List Event) :
    offset_checks (s ++ t) = offset_checks s ++ offset_checks t := by
  simp [offset_checks, List.filterMap_append]

theorem offset_checks_rw_events (o : Oracle) (u : Indet) (content : List Byte) :
    offset_checks (rw_events o u content) = [0, 0, 0, 0, 0] := by
  simp [offset_checks, rw_events, List.filterMap_cons]

/-- The shape of every trace of `main` from a fresh process. -/
theorem main_trace_shape (o : Oracle) (u : Indet) (content : List Byte) :
    (main o u (boot content)).2.trace = [Event.sys Call.open (-1)] ∨
    (∃ r, (main o u (boot content)).2.trace =
      [Event.sys Call.open 3, Event.sys (Call.dup 3) (-1), Event.sys (Call.close 3) r]) ∨
    (∃ t r1 r2, (∀ e ∈ t, unrelated e) ∧
      ((main o u (boot content)).2.trace =
          [Event.sys Call.open 3, Event.sys (Call.dup 3) 4] ++ t ++
            [Event.sys (Call.close 3) r1, Event.sys (Call.close 4) r2] ∨
        (main o u (boot content)).2.trace =
          [Event.sys Call.open 3, Event.sys (Call.dup 3) 4] ++ t ++
            [Event.sys (Call.close 4) r1, Event.sys (Call.close 3) r2])) := by
  rcases main_acquire_cases o content with ⟨w, e, ht⟩ | ⟨w, r, e, ht⟩ | ⟨w, e, ht⟩
  · left
    rw [main_eq_tail, M_bind_error _ _ _ _ _ e]
    exact ht
  · right; left
    refine ⟨r, ?_⟩
    rw [main_eq_tail, M_bind_error _ _ _ _ _ e]
    exact ht
  · right; right
    obtain ⟨t, pt, r1, r2, h⟩ := finishes_main_tail o u 3 4 w
    refine ⟨t, r1, r2, pt, ?_⟩
    rw [main_eq_tail, M_bind_ok _ _ _ _ _ e]
    rw [ht] at h
    exact h

/-! ## What leaves the backing file alone -/

theorem keeps_pure {α : Type} (a : α) : KeepsFile (pure a : K α) := fun _ => rfl

theorem keeps_bind {α β : Type} (m : K α) (f : α → K β) (hm : KeepsFile m)
    (hf : ∀ a, KeepsFile (f a)) : KeepsFile (m >>= f) := by
  intro w
  rw [K_bind, hf, hm]

theorem keeps_ite {α : Type} (c : Prop) [Decidable c] (m1 m2 : K α)
    (h1 : KeepsFile m1) (h2 : KeepsFile m2) : KeepsFile (if c then m1 else m2) := by
  by_cases h : c
  · simpa [h] using h1
  · simpa [h] using h2

theorem keeps_printf (s : List Char) : KeepsFile (printf s) := fun _ => rfl

theorem keeps_ret (f : Fn) (v : Int) : KeepsFile (ret f v) := fun _ => rfl

theorem keeps_put_printable (c : Byte) : KeepsFile (put_printable c) := by
  intro w
  rw [put_printable_run, say_file]

theorem keeps_buffer_loop (buffer : List Byte) (k i : Nat) :
    KeepsFile (buffer_loop buffer k i) := by
  intro w
  rw [buffer_loop_run, say_file]

theorem keeps_lseek (o : Oracle) (fd : Int) (off : Int) (wh : Whence) :
    KeepsFile (sys_lseek o fd off wh) := by
  intro w
  unfold sys_lseek
  split
  · rfl
  · split
    · dsimp only
      split <;> rfl
    · rfl

theorem keeps_read (o : Oracle) (fd : Int) (n : Nat) : KeepsFile (sys_read o fd n) := by
  intro w
  unfold sys_read
  split
  · rfl
  · split <;> rfl

theorem keeps_close (o : Oracle) (fd : Int) : KeepsFile (sys_close o fd) := by
  intro w
  unfold sys_close
  split
  · rfl
  · split <;> rfl

theorem keeps_file_loop (o : Oracle) (fd : Int) (k : Nat) :
    ∀ c : Byte, KeepsFile (file_loop o fd k c) := by
  induction k with
  | zero => intro c; exact keeps_pure true
  | succ k ih =>
    intro c
    unfold file_loop
    refine keeps_bind _ _ (keeps_read o fd 1) ?_
    intro r
    refine keeps_ite _ _ _ (keeps_pure false) ?_
    exact keeps_bind _ _ (keeps_put_printable _) (fun _ => ih _)

theorem keeps_print_all_characters_in_file (o : Oracle) (u : Indet) (fd : Int) :
    KeepsFile (print_all_characters_in_file o u fd) := by
  unfold print_all_characters_in_file
  refine keeps_bind _ _ (keeps_lseek o fd 0 Whence.SEEK_END) ?_
  intro file_size
  refine keeps_ite _ _ _ (keeps_ret _ _) ?_
  refine keeps_bind _ _ (keeps_printf _) ?_
  intro _
  refine keeps_bind _ _ (keeps_lseek o fd 0 Whence.SEEK_SET) ?_
  intro r
  refine keeps_ite _ _ _ (keeps_ret _ _) ?_
  refine keeps_bind _ _ (keeps_printf _) ?_
  intro _
  refine keeps_bind _ _ (keeps_file_loop o fd _ _) ?_
  intro ok
  refine keeps_ite _ _ _ (keeps_ret _ _) ?_
  exact keeps_bind _ _ (keeps_printf _) (fun _ => keeps_ret _ _)

theorem keeps_print_all_characters_in_buffer (u : Indet) (buffer : List Byte) (n : Nat) :
    KeepsFile (print_all_characters_in_buffer u buffer n) := by
  unfold print_all_characters_in_buffer
  exact keeps_bind _ _ (keeps_buffer_loop buffer n 0) (fun _ => keeps_ret _ _)

theorem keepsM_pure {α : Type} (a : α) : KeepsFileM (pure a : M α) := fun _ => rfl

theorem keepsM_exit {α : Type} (e : Int) : KeepsFileM (exit e : M α) := fun _ => rfl

theorem keepsM_call {α : Type} (m : K α) (h : KeepsFile m) : KeepsFileM (call m) := by
  intro w
  rw [call_run]
  exact h w

theorem keepsM_bind {α β : Type} (m : M α) (f : α → M β) (hm : KeepsFileM m)
    (hf : ∀ a, KeepsFileM (f a)) : KeepsFileM (m >>= f) := by
  intro w
  have h1 := hm w
  rcases hmw : m w with ⟨e | x, w1⟩
  · rw [M_bind_error _ _ _ _ _ hmw]
    rw [hmw] at h1
    exact h1
  · rw [M_bind_ok _ _ _ _ _ hmw, hf x w1]
    rw [hmw] at h1
    exact h1

theorem keepsM_ite {α : Type} (c : Prop) [Decidable c] (m1 m2 : M α)
    (h1 : KeepsFileM m1) (h2 : KeepsFileM m2) : KeepsFileM (if c then m1 else m2) := by
  by_cases h : c
  · simpa [h] using h1
  · simpa [h] using h2

theorem keepsM_bail {α : Type} (o : Oracle) (a b : Int) : KeepsFileM (bail o a b : M α) := by
  unfold bail
  exact keepsM_bind _ _ (keepsM_call _ (keeps_close o a))
    (fun _ => keepsM_bind _ _ (keepsM_call _ (keeps_close o b)) (fun _ => keepsM_exit _))

theorem keepsM_check (o : Oracle) (a b : Int) (r : Int) : KeepsFileM (check o a b r) := by
  unfold check
  exact keepsM_ite _ _ _ (keepsM_bail o a b) (keepsM_pure ())

theorem keepsM_main_end (o : Oracle) (u : Indet) (a b : Int) (filebuf : List Byte) :
    KeepsFileM (main_end o u a b filebuf) := by
  unfold main_end main_show main_dump main_release
  repeat' first
    | with_reducible exact keepsM_check o _ _ _
    | with_reducible exact keepsM_pure _
    | with_reducible exact keepsM_exit _
    | with_reducible exact keepsM_call _ (keeps_print_all_characters_in_buffer u _ _)
    | with_reducible exact keepsM_call _ (keeps_print_all_characters_in_file o u _)
    | with_reducible exact keepsM_call _ (keeps_close o _)
    | with_reducible exact keepsM_call _ (keeps_printf _)
    | with_reducible refine keepsM_ite _ _ _ ?_ ?_
    | with_reducible refine keepsM_bind _ _ ?_ (fun _ => ?_)

/-- The run of `main` when no call fails, as the tail after the fifth offset check applied
to the world the first part leaves. -/
theorem main_eq_end (o : Oracle) (hf : ∀ n, (o n).fail = false) (u : Indet)
    (content : List Byte) :
    main o u (boot content) = main_end o u 3 4
      (bulk o u content ++ u.filebuf.drop (bulk o u content).length)
      (std (file_after o u content) (0 + (bulk o u content).length) 19
        ([Event.sys Call.open 3, Event.sys (Call.dup 3) 4] ++ rw_events o u content)
        (acquire_text ++ rw_text o u content)) := by
  rw [main_eq_tail, M_bind_ok _ _ _ _ _ (main_acquire_boot o content (hf 0) (hf 1))]
  show main_tail o u 3 4 _ = _
  rw [main_tail_eq_end, M_bind_ok _ _ _ _ _ (main_rw_std o hf u content _ _)]
  rfl

/-- The backing file after a run without failing calls. -/
theorem main_file (o : Oracle) (hf : ∀ n, (o n).fail = false) (u : Indet)
    (content : List Byte) : (main o u (boot content)).2.file = file_after o u content := by
  rw [main_eq_end o hf, keepsM_main_end]
  rfl

/-- The first events of the trace of a run without failing calls. -/
theorem main_trace_prefix (o : Oracle) (hf : ∀ n, (o n).fail = false) (u : Indet)
    (content : List Byte) :
    ∃ t, (main o u (boot content)).2.trace =
      ([Event.sys Call.open 3, Event.sys (Call.dup 3) 4] ++ rw_events o u content) ++ t := by
  obtain ⟨t, _, r1, r2, h⟩ := finishes_main_end o u 3 4
    (bulk o u content ++ u.filebuf.drop (bulk o u content).length)
    (std (file_after o u content) (0 + (bulk o u content).length) 19
      ([Event.sys Call.open 3, Event.sys (Call.dup 3) 4] ++ rw_events o u content)
      (acquire_text ++ rw_text o u content))
  rw [main_eq_end o hf]
  rcases h with h | h
  · exact ⟨t ++ [Event.sys (Call.close 3) r1, Event.sys (Call.close 4) r2], by
      rw [h]; simp only [std, List.append_assoc]⟩
  · exact ⟨t ++ [Event.sys (Call.close 4) r1, Event.sys (Call.close 3) r2], by
      rw [h]; simp only [std, List.append_assoc]⟩

/-! ## Full transfers -/

theorem unhindered_fail (o : Oracle) (ho : unhindered o) : ∀ n, (o n).fail = false :=
  fun n => (ho n).1

theorem unhindered_one (o : Oracle) (ho : unhindered o) :
    ∀ n, (o n).fail = false ∧ 1 ≤ (o n).limit :=
  fun n => ⟨(ho n).1, Nat.le_trans (by decide) (ho n).2⟩

theorem unhindered_full_writes (o : Oracle) (ho : unhindered o) : full_writes o :=
  ⟨Nat.le_trans (by decide) (ho 6).2, Nat.le_trans (by decide) (ho 9).2,
    Nat.le_trans (by decide) (ho 12).2⟩

theorem calm_unhindered : unhindered calm := fun _ => ⟨rfl, Nat.le_refl 50⟩

theorem bulk_full (o : Oracle) (h : 50 ≤ (o 16).limit) (u : Indet) (content : List Byte) :
    bulk o u content = (file_after o u content).take 50 := by
  simp [bulk, Nat.min_eq_left h]

theorem written_length (u : Indet) : (written u).length = 15 := rfl

theorem file_after_empty (o : Oracle) (hw : full_writes o) (u : Indet) :
    file_after o u [] = written u := by
  rw [file_after_full o hw]
  simp

theorem bulk_empty (o : Oracle) (hw : full_writes o) (hr : 50 ≤ (o 16).limit) (u : Indet) :
    bulk o u [] = written u := by
  rw [bulk_full o hr, file_after_empty o hw]
  rfl

/-- The run up to line 214 on an empty file with full transfers. -/
theorem through_read_empty (o : Oracle) (hf : ∀ n, (o n).fail = false) (hw : full_writes o)
    (hr : 50 ≤ (o 16).limit) (u : Indet) :
    (through_read o u []).1 = Except.ok (15, written u ++ u.filebuf.drop 15) ∧
    (through_read o u []).2.file = written u := by
  rw [through_read_std o hf, bulk_empty o hw hr, file_after_empty o hw]
  exact ⟨rfl, rfl⟩

theorem calm_fail : ∀ n, (calm n).fail = false := fun _ => rfl

theorem calm_full_writes : full_writes calm := by
  unfold full_writes calm
  decide

theorem rendered_written (u : Indet) :
    rendered (written u) =
      "aaaaabbbbb".toList ++
        [' ', if 0x20 ≤ u.after_literal ∧ u.after_literal ≤ 0x7E
          then Char.ofNat u.after_literal else ' '] ++ "ccc".toList := by
  simp only [rendered, written, List.map_cons, List.map_nil, isprint, decide_eq_true_eq]
  rfl

/-- The file dump of `main` on an empty file with full transfers. -/
theorem file_dump_empty (o : Oracle) (ho : unhindered o) (u : Indet) (hb : u.ret_buffer ≠ -1) :
    (before_dump o u []).1 = Except.ok (3, 4) ∧
    (print_all_characters_in_file o u 3 (before_dump o u []).2).2.out =
      (before_dump o u []).2.out ++ dump_text (written u) := by
  rw [before_dump_std o (unhindered_fail o ho) u hb,
    file_after_empty o (unhindered_full_writes o ho),
    print_all_characters_in_file_std o (unhindered_one o ho)]
  exact ⟨rfl, rfl⟩

theorem M_bind_error_fst {α β : Type} (m : M α) (f : α → M β) (w : World) (e : Int)
    (h : (m w).1 = Except.error e) : ((m >>= f) w).1 = Except.error e := by
  have h2 : m w = (Except.error e, (m w).2) := by rw [← h]
  rw [M_bind_error _ _ _ _ _ h2]

theorem main_show_fail (o : Oracle) (u : Indet) (hb : u.ret_buffer = -1) (filebuf : List Byte)
    (file : List Byte) (off clock : Nat) (trace : List Event) (out : List Char) :
    (main_show o u 3 4 filebuf (std file off clock trace out)).1
      = Except.error EXIT_FAILURE := by
  simp only [main_show, M_bind_call, printf_std, print_all_characters_in_buffer_std]
  apply M_bind_error_fst
  simp only [check, hb, if_true]
  rfl

theorem before_dump_fail (o : Oracle) (ho : ∀ n, (o n).fail = false) (u : Indet)
    (hb : u.ret_buffer = -1) (content : List Byte) :
    (before_dump o u content).1 = Except.error EXIT_FAILURE := by
  unfold before_dump
  rw [M_bind_ok _ _ _ _ _ (main_acquire_boot o content (ho 0) (ho 1))]
  rw [M_bind_ok _ _ _ _ _ (main_rw_std o ho u content _ _)]
  apply M_bind_error_fst
  exact main_show_fail o u hb _ _ _ _ _ _

theorem written_congr (u u2 : Indet) (h : u2.after_literal = u.after_literal) :
    written u2 = written u := by
  simp [written, h]

theorem drop_written (u : Indet) (rest : List Byte) : (written u ++ rest).drop 15 = rest := by
  have h := List.drop_left (written u) rest
  rwa [written_length] at h

theorem strlen_cons (b : Byte) (l : List Byte) :
    strlen (b :: l) = if b = 0 then 0 else strlen l + 1 := by
  unfold strlen
  by_cases h : b = 0
  · simp [h, List.takeWhile_cons]
  · simp [h, List.takeWhile_cons]

/-- What `strlen` computes when the buffer holds a zero byte at index `i`. -/
theorem strlen_spec (l : List Byte) :
    ∀ i, l[i]? = some 0 →
      strlen l ≤ i ∧ l[strlen l]? = some 0 ∧ ∀ j, j < strlen l → l[j]? ≠ some 0 := by
  induction l with
  | nil =>
    intro i h
    simp at h
  | cons b l ih =>
    intro i h
    rw [strlen_cons]
    by_cases hb : b = 0
    · subst hb
      simp
    · rw [if_neg hb]
      cases i with
      | zero =>
        simp at h
        exact absurd h hb
      | succ i =>
        rw [List.getElem?_cons_succ] at h
        obtain ⟨h1, h2, h3⟩ := ih i h
        refine ⟨Nat.succ_le_succ h1, by rw [List.getElem?_cons_succ]; exact h2, ?_⟩
        intro j hj
        cases j with
        | zero =>
          simp only [List.getElem?_cons_zero, ne_eq, Option.some.injEq]
          exact hb
        | succ j =>
          rw [List.getElem?_cons_succ]
          exact h3 j (Nat.lt_of_succ_lt_succ hj)

/-! ## The claims -/

/-- C1: when no call fails, whatever the initial file content and however many bytes the
three writes and the bulk read transfer, `main` calls `check_offsets` five times and every
call returns 0: the two handles always report the same offset. -/
theorem check_offsets_returns_zero_five_times (o : Oracle) (ho : ∀ n, (o n).fail = false)
    (u : Indet) (content : List Byte) :
    offset_checks (main o u (boot content)).2.trace = [0, 0, 0, 0, 0] := by
  obtain ⟨t, pt, r1, r2, h⟩ := finishes_main_end o u 3 4
    (bulk o u content ++ u.filebuf.drop (bulk o u content).length)
    (std (file_after o u content) (0 + (bulk o u content).length) 19
      ([Event.sys Call.open 3, Event.sys (Call.dup 3) 4] ++ rw_events o u content)
      (acquire_text ++ rw_text o u content))
  have E : main o u (boot content) = main_end o u 3 4
      (bulk o u content ++ u.filebuf.drop (bulk o u content).length)
      (std (file_after o u content) (0 + (bulk o u content).length) 19
        ([Event.sys Call.open 3, Event.sys (Call.dup 3) 4] ++ rw_events o u content)
        (acquire_text ++ rw_text o u content)) := by
    rw [main_eq_tail, M_bind_ok _ _ _ _ _ (main_acquire_boot o content (ho 0) (ho 1))]
    show main_tail o u 3 4 _ = _
    rw [main_tail_eq_end, M_bind_ok _ _ _ _ _ (main_rw_std o ho u content _ _)]
    rfl
  have hc : ∀ a b r1 r2, offset_checks
      [Event.sys (Call.close a) r1, Event.sys (Call.close b) r2] = [] := by
    intro a b r1 r2
    rfl
  have ht := offset_checks_none t pt
  have h0 : offset_checks [Event.sys Call.open 3, Event.sys (Call.dup 3) 4] = [] := rfl
  rw [E]
  rcases h with h | h <;>
    rw [h] <;>
    simp only [std, offset_checks_append, offset_checks_rw_events, ht, hc, h0,
      List.append_nil, List.nil_append]

theorem check_offsets_returns_zero_five_times_witness :
    offset_checks (main calm indet0 (boot [1, 2, 3])).2.trace = [0, 0, 0, 0, 0] :=
  check_offsets_returns_zero_five_times calm (fun _ => rfl) indet0 [1, 2, 3]

/-- C7: on every exit path of `main`, whatever calls fail, `close` is called exactly once on
each handle that was acquired and never on a handle that is not held: replaying the trace
against the set of held handles never fails and ends with no handle held. -/
theorem main_closes_each_acquired_handle_once (o : Oracle) (u : Indet) (content : List Byte) :
    discipline [] (main o u (boot content)).2.trace = some [] := by
  rcases main_trace_shape o u content with h | ⟨r, h⟩ | ⟨t, r1, r2, pt, h | h⟩
  · rw [h]
    simp [discipline]
  · rw [h]
    simp [discipline]
  · rw [h]
    show discipline [] (Event.sys Call.open 3 :: Event.sys (Call.dup 3) 4 ::
      (t ++ [Event.sys (Call.close 3) r1, Event.sys (Call.close 4) r2])) = some []
    simp only [discipline]
    rw [if_neg (by decide), if_neg (by simp), if_neg (by decide), if_neg (by decide),
      discipline_skip _ _ _ pt]
    simp [discipline]
  · rw [h]
    show discipline [] (Event.sys Call.open 3 :: Event.sys (Call.dup 3) 4 ::
      (t ++ [Event.sys (Call.close 4) r1, Event.sys (Call.close 3) r2])) = some []
    simp only [discipline]
    rw [if_neg (by decide), if_neg (by simp), if_neg (by decide), if_neg (by decide),
      discipline_skip _ _ _ pt]
    simp [discipline]

/-- C9: `check_offsets` and `check_flags` return -1 exactly when one of their two queries
fails, otherwise 0 exactly when the two queried values are equal and 1 exactly when they
differ; neither changes the descriptions (offsets, flags), the descriptor table or the
file. -/
theorem inspectors_are_tri_state (o : Oracle) (fd1 fd2 : Int) (w : World) :
    (tri_state (sys_lseek o fd1 0 Whence.SEEK_CUR w).1
        (sys_lseek o fd2 0 Whence.SEEK_CUR (sys_lseek o fd1 0 Whence.SEEK_CUR w).2).1
        (check_offsets o fd1 fd2 w).1 ∧
      (check_offsets o fd1 fd2 w).2.ofd = w.ofd ∧
      (check_offsets o fd1 fd2 w).2.fdt = w.fdt ∧
      (check_offsets o fd1 fd2 w).2.file = w.file) ∧
    (tri_state (sys_fcntl o fd1 w).1 (sys_fcntl o fd2 (sys_fcntl o fd1 w).2).1
        (check_flags o fd1 fd2 w).1 ∧
      (check_flags o fd1 fd2 w).2.ofd = w.ofd ∧
      (check_flags o fd1 fd2 w).2.fdt = w.fdt ∧
      (check_flags o fd1 fd2 w).2.file = w.file) := by
  obtain ⟨a1, a2⟩ := check_offsets_run o fd1 fd2 w
  obtain ⟨b1, b2⟩ := check_flags_run o fd1 fd2 w
  refine ⟨⟨?_, a2⟩, ⟨?_, b2⟩⟩
  · rw [a1]
    exact tri_state_ite _ _
  · rw [b1]
    exact tri_state_ite _ _

theorem rendered_getElem? (bs : List Byte) (i : Nat) (b : Byte) (h : bs[i]? = some b) :
    (rendered bs)[i]? = some (if 0x20 ≤ b ∧ b ≤ 0x7E then Char.ofNat b else ' ') := by
  simp only [rendered, List.getElem?_map, h, Option.map_some', isprint, decide_eq_true_eq]

/-- C4: for a buffer and a size `n` not exceeding its length, `print_all_characters_in_buffer`
appends exactly `n` characters to standard output, and the `i`-th of them is the byte
`buffer[i]` itself when it lies in 0x20..0x7E and a single space otherwise (so also for the
zero byte). -/
theorem print_all_characters_in_buffer_emits (u : Indet) (buffer : List Byte) (n : Nat)
    (w : World) (hn : n ≤ buffer.length) :
    ∃ E : List Char,
      (print_all_characters_in_buffer u buffer n w).2.out = w.out ++ E ∧
      E.length = n ∧
      ∀ i b, i < n → buffer[i]? = some b →
        E[i]? = some (if 0x20 ≤ b ∧ b ≤ 0x7E then Char.ofNat b else ' ') := by
  refine ⟨rendered (buffer.take n), ?_, ?_, ?_⟩
  · rw [print_all_characters_in_buffer_run, window_zero_eq_take buffer n hn]
    rfl
  · rw [rendered_length, List.length_take, Nat.min_eq_left hn]
  · intro i b hi hb
    apply rendered_getElem?
    rw [List.getElem?_take_of_lt hi]
    exact hb

theorem print_all_characters_in_buffer_emits_witness :
    ∃ E : List Char,
      (print_all_characters_in_buffer indet0 [97, 0, 10, 126, 127] 4 (boot [])).2.out
        = (boot []).out ++ E ∧
      E.length = 4 ∧
      ∀ i b, i < 4 → [97, 0, 10, 126, 127][i]? = some b →
        E[i]? = some (if 0x20 ≤ b ∧ b ≤ 0x7E then Char.ofNat b else ' ') :=
  print_all_characters_in_buffer_emits indet0 [97, 0, 10, 126, 127] 4 (boot []) (by decide)

/-- C5: for every file content and every starting offset of an open handle, when no call
fails and every one-byte read delivers the next byte, the characters
`print_all_characters_in_file` writes between its banner lines are exactly those
`print_all_characters_in_buffer` writes for the whole file content with
`buffer_size = file_size`: each byte of the file, from offset 0, as itself when printable
and as a space otherwise. -/
theorem file_dump_equals_buffer_dump (o : Oracle) (u : Indet) (fd : Int) (w w0 : World)
    (d : Nat) (f : OpenFile) (h : w.desc fd = some (d, f))
    (ho : ∀ n, (o n).fail = false ∧ 1 ≤ (o n).limit) :
    ∃ E : List Char,
      (print_all_characters_in_file o u fd w).2.out =
        w.out ++ ("File contains " ++ toString (w.file.length : Int) ++ " bytes.\n").toList
          ++ "Printing all characters in file:\n\n##############\n\n".toList
          ++ E ++ "\n\n##############\n\n".toList ∧
      (print_all_characters_in_buffer u w.file w.file.length w0).2.out = w0.out ++ E ∧
      E = rendered w.file := by
  refine ⟨rendered w.file, print_all_characters_in_file_out o u fd w d f h ho, ?_, rfl⟩
  rw [print_all_characters_in_buffer_run, window_zero_eq_take w.file _ (Nat.le_refl _),
    List.take_length]
  rfl

theorem file_dump_equals_buffer_dump_witness :
    ∃ E : List Char,
      (print_all_characters_in_file calm indet0 3 (std [97, 0, 98] 2 0 [] [])).2.out =
        (std [97, 0, 98] 2 0 [] []).out
          ++ ("File contains " ++ toString (((std [97, 0, 98] 2 0 [] []).file.length : Nat) : Int)
            ++ " bytes.\n").toList
          ++ "Printing all characters in file:\n\n##############\n\n".toList
          ++ E ++ "\n\n##############\n\n".toList ∧
      (print_all_characters_in_buffer indet0 (std [97, 0, 98] 2 0 [] []).file
        (std [97, 0, 98] 2 0 [] []).file.length (boot [])).2.out = (boot []).out ++ E ∧
      E = rendered (std [97, 0, 98] 2 0 [] []).file :=
  file_dump_equals_buffer_dump calm indet0 3 (std [97, 0, 98] 2 0 [] []) (boot []) 1
    ⟨2, O_RDWR⟩ (std_desc3 _ _ _ _ _) (fun _ => ⟨rfl, (show 1 ≤ 50 by decide)⟩)

/-- C2 (as amended): starting from an empty backing file, when no call fails, every write
transfers its full requested length (5, 7 and 3 bytes) and the bulk read is not cut short,
the file is 15 bytes long after the three writes (5 + 7 + 3), and the bulk read of 50
bytes after the rewind returns min(15, 50) = 15. -/
theorem three_writes_make_fifteen_bytes (o : Oracle) (hf : ∀ n, (o n).fail = false)
    (hw : full_writes o) (hr : 50 ≤ (o 16).limit) (u : Indet) :
    (through_read o u []).2.file.length = 15 ∧
    (through_read o u []).1 = Except.ok (((min 15 50 : Nat) : Int),
      written u ++ u.filebuf.drop 15) := by
  obtain ⟨h1, h2⟩ := through_read_empty o hf hw hr u
  exact ⟨by rw [h2, written_length], h1⟩

theorem three_writes_make_fifteen_bytes_witness :
    (through_read calm indet0 []).2.file.length = 15 ∧
    (through_read calm indet0 []).1 = Except.ok (((min 15 50 : Nat) : Int),
      written indet0 ++ indet0.filebuf.drop 15) :=
  three_writes_make_fifteen_bytes calm (fun _ => rfl)
    ⟨(show 5 ≤ 50 by decide), (show 7 ≤ 50 by decide), (show 3 ≤ 50 by decide)⟩
    (Nat.le_refl 50) indet0

/-- C2 as stated fails: on an empty file with full transfers the file is not 13 bytes long
after the three writes and the bulk read does not return 13. -/
theorem three_writes_do_not_make_thirteen_bytes :
    ¬ ((through_read calm indet0 []).2.file.length = 13 ∨
      ∃ filebuf, (through_read calm indet0 []).1 = Except.ok (13, filebuf)) := by
  obtain ⟨h1, h2⟩ := through_read_empty calm calm_fail calm_full_writes (Nat.le_refl 50) indet0
  rw [h1, h2, written_length]
  rintro (h | ⟨filebuf, h⟩)
  · exact absurd h (by decide)
  · have h3 : (15 : Int) = 13 := congrArg Prod.fst (Except.ok.inj h)
    exact absurd h3 (by decide)

/-- C3 (as amended): starting from an empty backing file with full transfers, for every
value of the byte that follows the literal `"bbbbb"` and its terminating zero, the
characters `print_all_characters_in_file(newfd1)` writes between its banner lines are
"aaaaa", then "bbbbb", then one blank for the terminating zero, then that following byte
(itself when printable, a blank otherwise), then "ccc". -/
theorem file_dump_of_fresh_run (o : Oracle) (ho : unhindered o) (u : Indet) (fds : Int × Int)
    (hs : (before_dump o u []).1 = Except.ok fds) :
    (print_all_characters_in_file o u fds.1 (before_dump o u []).2).2.out =
      (before_dump o u []).2.out
        ++ ("File contains " ++ toString (15 : Int) ++ " bytes.\n").toList
        ++ "Printing all characters in file:\n\n##############\n\n".toList
        ++ ("aaaaabbbbb".toList ++
            [' ', if 0x20 ≤ u.after_literal ∧ u.after_literal ≤ 0x7E
              then Char.ofNat u.after_literal else ' '] ++ "ccc".toList)
        ++ "\n\n##############\n\n".toList := by
  by_cases hb : u.ret_buffer = -1
  · rw [before_dump_fail o (unhindered_fail o ho) u hb] at hs
    cases hs
  · obtain ⟨h1, h2⟩ := file_dump_empty o ho u hb
    rw [h1] at hs
    cases hs
    rw [h2, dump_text, rendered_written, written_length]
    simp only [List.append_assoc]
    rfl

theorem file_dump_of_fresh_run_witness :
    (print_all_characters_in_file calm indet0 ((3, 4) : Int × Int).1
        (before_dump calm indet0 []).2).2.out =
      (before_dump calm indet0 []).2.out
        ++ ("File contains " ++ toString (15 : Int) ++ " bytes.\n").toList
        ++ "Printing all characters in file:\n\n##############\n\n".toList
        ++ ("aaaaabbbbb".toList ++
            [' ', if 0x20 ≤ indet0.after_literal ∧ indet0.after_literal ≤ 0x7E
              then Char.ofNat indet0.after_literal else ' '] ++ "ccc".toList)
        ++ "\n\n##############\n\n".toList := by
  have h := file_dump_of_fresh_run calm (fun _ => ⟨rfl, Nat.le_refl 50⟩) indet0 (3, 4)
    (file_dump_empty calm calm_unhindered indet0 (by decide)).1
  exact h

/-- C3 as stated fails: with a zero byte after the literal, the dump of the fresh run does
not show "aaaaa", two blanks, "bbbbb", "ccc". -/
theorem file_dump_has_no_hole_before_b :
    (print_all_characters_in_file calm indet0 3 (before_dump calm indet0 []).2).2.out ≠
      (before_dump calm indet0 []).2.out
        ++ ("File contains " ++ toString (15 : Int) ++ " bytes.\n").toList
        ++ "Printing all characters in file:\n\n##############\n\n".toList
        ++ "aaaaa  bbbbbccc".toList
        ++ "\n\n##############\n\n".toList := by
  rw [(file_dump_empty calm calm_unhindered indet0 (by decide)).2, dump_text, written_length]
  simp only [List.append_assoc]
  intro h
  have h1 := List.append_cancel_left (List.append_cancel_left (List.append_cancel_left h))
  have h2 := List.append_cancel_right h1
  rw [rendered_written] at h2
  exact absurd h2 (by decide)

/-- C10: the file is opened without `O_TRUNC` and without `O_APPEND`, so for every initial
content a run in which no call fails and the writes are full starts at offset 0, puts its
fifteen bytes at indices 0..14, leaves every byte at index 15 or above unchanged and
leaves the file with length max(n, 15); a second such run on the resulting file, with the
same byte after the literal, leaves the file as it is. -/
theorem run_overwrites_first_fifteen_bytes (o : Oracle) (hf : ∀ n, (o n).fail = false)
    (hw : full_writes o) (u : Indet) (content : List Byte) :
    (main o u (boot content)).2.trace[5]?
      = some (Event.sys (Call.lseek 3 0 Whence.SEEK_CUR) 0) ∧
    (main o u (boot content)).2.file = written u ++ content.drop 15 ∧
    (main o u (boot content)).2.file.length = max content.length 15 ∧
    (∀ i, 15 ≤ i → (main o u (boot content)).2.file[i]? = content[i]?) ∧
    ∀ (o2 : Oracle) (u2 : Indet), (∀ n, (o2 n).fail = false) → full_writes o2 →
      u2.after_literal = u.after_literal →
      (main o2 u2 (boot (main o u (boot content)).2.file)).2.file
        = (main o u (boot content)).2.file := by
  have hfile : (main o u (boot content)).2.file = written u ++ content.drop 15 := by
    rw [main_file o hf, file_after_full o hw]
  refine ⟨?_, hfile, ?_, ?_, ?_⟩
  · obtain ⟨t, ht⟩ := main_trace_prefix o hf u content
    rw [ht, List.getElem?_append_left (by simp [rw_events])]
    rfl
  · rw [hfile, List.length_append, written_length, List.length_drop]
    omega
  · intro i hi
    rw [hfile, List.getElem?_append_right (by rw [written_length]; exact hi), written_length,
      List.getElem?_drop]
    congr 1
    omega
  · intro o2 u2 hf2 hw2 hu
    rw [main_file o2 hf2, file_after_full o2 hw2, hfile, drop_written, written_congr u u2 hu]

theorem run_overwrites_first_fifteen_bytes_witness :
    (main calm indet0 (boot (List.replicate 20 7))).2.trace[5]?
      = some (Event.sys (Call.lseek 3 0 Whence.SEEK_CUR) 0) ∧
    (main calm indet0 (boot (List.replicate 20 7))).2.file
      = written indet0 ++ (List.replicate 20 7).drop 15 ∧
    (main calm indet0 (boot (List.replicate 20 7))).2.file.length
      = max (List.replicate 20 7).length 15 ∧
    (∀ i, 15 ≤ i → (main calm indet0 (boot (List.replicate 20 7))).2.file[i]?
      = (List.replicate 20 7)[i]?) ∧
    ∀ (o2 : Oracle) (u2 : Indet), (∀ n, (o2 n).fail = false) → full_writes o2 →
      u2.after_literal = indet0.after_literal →
      (main o2 u2 (boot (main calm indet0 (boot (List.replicate 20 7))).2.file)).2.file
        = (main calm indet0 (boot (List.replicate 20 7))).2.file := by
  have h := run_overwrites_first_fifteen_bytes calm (fun _ => rfl)
    ⟨(show 5 ≤ 50 by decide), (show 7 ≤ 50 by decide), (show 3 ≤ 50 by decide)⟩
    indet0 (List.replicate 20 7)
  exact h

/-- C6 (as amended): in a run where no call fails and the bulk read (system call number
16) is not cut short, whatever the writes transferred: when a zero byte lies among the
first `bytes_read` bytes of `filebuf`, the bulk read has returned min(file size, 50),
`strlen(filebuf)` is the index of the first zero byte, and `strlen(filebuf) < bytes_read`. -/
theorem bulk_read_spans_zero_bytes (o : Oracle) (hf : ∀ n, (o n).fail = false)
    (hfull : 50 ≤ (o 16).limit) (u : Indet) (content : List Byte) (rd : Int × List Byte)
    (hs : (through_read o u content).1 = Except.ok rd)
    (i : Nat) (hi : (i : Int) < rd.1) (hz : rd.2[i]? = some 0) :
    rd.1 = ((min (through_read o u content).2.file.length 50 : Nat) : Int) ∧
    rd.2[strlen rd.2]? = some 0 ∧
    (∀ j, j < strlen rd.2 → rd.2[j]? ≠ some 0) ∧
    (strlen rd.2 : Int) < rd.1 := by
  rw [through_read_std o hf] at hs ⊢
  have hs2 := Except.ok.inj hs
  subst hs2
  obtain ⟨h1, h2, h3⟩ := strlen_spec _ i hz
  refine ⟨?_, h2, h3, ?_⟩
  · show ((bulk o u content).length : Int) = ((min (file_after o u content).length 50 : Nat) : Int)
    rw [bulk_full o hfull, List.length_take, Nat.min_comm]
  · exact lt_of_le_of_lt (Int.ofNat_le.2 h1) hi

theorem bulk_read_spans_zero_bytes_witness :
    ((15 : Int), written indet0 ++ indet0.filebuf.drop 15).1
      = ((min (through_read calm indet0 []).2.file.length 50 : Nat) : Int) ∧
    ((15 : Int), written indet0 ++ indet0.filebuf.drop 15).2[strlen
      ((15 : Int), written indet0 ++ indet0.filebuf.drop 15).2]? = some 0 ∧
    (∀ j, j < strlen ((15 : Int), written indet0 ++ indet0.filebuf.drop 15).2 →
      ((15 : Int), written indet0 ++ indet0.filebuf.drop 15).2[j]? ≠ some 0) ∧
    (strlen ((15 : Int), written indet0 ++ indet0.filebuf.drop 15).2 : Int)
      < ((15 : Int), written indet0 ++ indet0.filebuf.drop 15).1 := by
  have h := bulk_read_spans_zero_bytes calm (fun _ => rfl) (Nat.le_refl 50) indet0 []
    ((15 : Int), written indet0 ++ indet0.filebuf.drop 15)
    (through_read_empty calm calm_fail calm_full_writes (Nat.le_refl 50) indet0).1 10
    (by decide) (by decide)
  exact h

/-- C8 fails on the code: `print_all_characters_in_buffer` has no `return` statement, and
when the value `main` reads for it is -1 the process takes the failure exit although every
system call of the run succeeded. -/
theorem buffer_dump_can_cause_failure_exit :
    exit_status (main calm indet_minus_one (boot [])) = EXIT_FAILURE ∧
    all_calls_succeed (main calm indet_minus_one (boot [])).2.trace = true ∧
    (main calm indet_minus_one (boot [])).2.trace.getLast?
      = some (Event.sys (Call.close 4) 0) := by
  decide!

theorem short_read_fail : ∀ n, (short_read n).fail = false := by
  intro n
  unfold short_read
  by_cases h : n = 16 <;> simp [h]

theorem short_read_limit : ∀ n, 1 ≤ (short_read n).limit := by
  intro n
  unfold short_read
  by_cases h : n = 16 <;> simp [h]

theorem short_read_full_writes : full_writes short_read := by
  unfold full_writes short_read
  decide

theorem bulk_short_read : bulk short_read indet0 [] = (written indet0).take 11 := by
  have h16 : (short_read 16).limit = 11 := rfl
  rw [bulk, h16, file_after_empty short_read short_read_full_writes]
  rfl

/-- C6 as stated fails: in a run of `main` on an empty file that ends with status 0 and in
which no call fails, the bulk read may be cut short to 11 bytes; a zero byte then lies at
index 10 among the first `bytes_read` = 11 bytes of `filebuf`, the file is 15 bytes long,
and `bytes_read` is not min(15, 50). -/
theorem short_bulk_read_is_not_the_full_count :
    (main short_read indet0 (boot [])).1 = Except.ok EXIT_SUCCESS ∧
    (∀ n, (short_read n).fail = false) ∧
    (through_read short_read indet0 []).1 =
      Except.ok (11, (written indet0).take 11 ++ indet0.filebuf.drop 11) ∧
    ((written indet0).take 11 ++ indet0.filebuf.drop 11)[10]? = some 0 ∧
    (through_read short_read indet0 []).2.file.length = 15 ∧
    (11 : Int) ≠ ((min 15 50 : Nat) : Int) := by
  refine ⟨?_, short_read_fail, ?_, by decide, ?_, by decide⟩
  · exact (main_run short_read (fun n => ⟨short_read_fail n, short_read_limit n⟩) indet0
      (by decide) (by decide) []).1
  · rw [through_read_std short_read short_read_fail, bulk_short_read]
    rfl
  · rw [through_read_std short_read short_read_fail,
      file_after_empty short_read short_read_full_writes]
    rfl

end Dupprac2
